import Mathlib

/-!
The marshalling core of `factory.c`.

A shallow embedding of `engine_handleregistry`, `engine_pushobject`,
`engine_popvalue`, `engine_pushvalue` and the constructors of `LuaNValueFactory`
from `consoles-computers/src/main/c/factory.c`, over a model of the part of the
Lua C API these functions call, followed by theorems about them.

Conventions of the model.

* The VM evaluation stack is a list whose head is the top of the stack, so
  index `-1` is the head and `lua_gettop` is the length.  The stack is not
  bounded (the C code never calls `lua_checkstack`).
* Tables live in a heap (`lua_State.tables`) and are named by their position
  in it; a table is an association list searched from the front.  Tables carry
  no metatable, so `lua_gettable` on a table is a raw lookup.
* A `lua_Number` is a double: a finite one is kept by its exact value.
* The VM's conversion of a string to a number (used by `lua_isnumber` and
  `lua_tonumber`) differs between Lua versions, so it is an argument `str2d`
  of every function that reaches it.
* A call of the C API with an index that names no stack slot is undefined
  behaviour in C; the model stops there with `Fault.apiMisuse`.
-/

namespace Consoles

/-! ## Values of the VM -/

/-- A VM number (a C double): finite values by exact value, and the three non-finite ones -/
inductive lua_Number where
  | finite (q : Rat)
  | posInf
  | negInf
  | nan
  deriving DecidableEq

/-- A value of the VM (`TValue` in the VM's sources); heap objects are named by a reference -/
inductive TValue where
  | nil
  | boolean (b : Bool)
  | number (n : lua_Number)
  | string (bytes : List Nat)
  | lightuserdata (p : Nat)
  | userdata (ref : Nat)
  | lfunction (ref : Nat)
  | cfunction (ref : Nat)
  | thread (ref : Nat)
  | table (ref : Nat)
  deriving DecidableEq

/-- A table of the VM: key and value pairs, the first pair for a key being the live one -/
abbrev Table := List (TValue × TValue)

/-- The block behind a bridge userdata (`engine_userdata` of `engine.h`) -/
structure engine_userdata where
  obj : Nat
  engine : Nat
  released : Nat
  deriving DecidableEq

/-- The state of one VM: evaluation stack (top first), table heap, userdata heap
(each block with its metatable), global variables, and the metatable registered
under `ENGINE_USERDATA_TYPE` -/
structure lua_State where
  stack : List TValue
  tables : List Table
  udata : List (TValue × engine_userdata)
  globals : List (String × TValue)
  udata_meta : TValue
  deriving DecidableEq

/-! ## Tagged values of the bridge -/

/-- The tagged value of the bridge (`engine_value` of `engine.h`), one constructor per
type tag.  A Boolean keeps the truth value of its payload (a C `long` that is 0 or 1);
a string payload is the whole C buffer, terminator included; an array is the list of its
`length` slots, a slot being `none` where the C pointer is null. -/
inductive engine_value where
  | ENGINE_NULL
  | ENGINE_BOOLEAN (i : Bool)
  | ENGINE_INTEGRAL (i : Int)
  | ENGINE_FLOATING (d : lua_Number)
  | ENGINE_STRING (str : List Nat)
  | ENGINE_ARRAY (values : List (Option engine_value))
  | ENGINE_JAVA_OBJECT (obj : Nat)
  | ENGINE_LUA_GLOBALS
  | ENGINE_LUA_FUNCTION (func : Nat)
  | ENGINE_JAVA_LAMBDA_FUNCTION (lambda class_array : Nat)
  | ENGINE_JAVA_REFLECT_FUNCTION (reflect_method obj_inst : Nat)

/-- The process around the VM: the VM state, the C global `function_index`, and the
host's strong references handed out by `NewGlobalRef` (newest first, each named by
the host object it keeps alive) -/
structure Bridge where
  state : lua_State
  function_index : Nat
  global_refs : List Nat
  deriving DecidableEq

/-- The ways a call can stop without returning: the C `abort()`, reached in the given state
of the process; an error raised by the VM; a call of the C API on a stack slot that does
not exist; and the embedding's recursion bound used up -/
inductive Fault where
  | abort (w : Bridge)
  | luaError
  | apiMisuse
  | outOfFuel
  deriving DecidableEq

open engine_value

/-! ## The part of the Lua C API the bridge calls -/

/-- The position, counted from the top, of the stack slot an index names: negative indices
count from the top, positive ones from the bottom; `none` when the index names no slot -/
def stack_slot (L : lua_State) (idx : Int) : Option Nat :=
  if idx < 0 then
    if (-idx).toNat ≤ L.stack.length then some ((-idx).toNat - 1) else none
  else if 0 < idx ∧ idx.toNat ≤ L.stack.length then some (L.stack.length - idx.toNat)
  else none

/-- The value at a stack index (`index2adr`) -/
def index2adr (L : lua_State) (idx : Int) : Option TValue :=
  (stack_slot L idx).bind (fun p => L.stack[p]?)

/-- Number of values on the stack -/
def lua_gettop (L : lua_State) : Nat := L.stack.length

/-- Sets the top of the stack: a non-negative index is the new depth (new slots are nil),
a negative one is relative to the current top -/
def lua_settop (L : lua_State) (idx : Int) : Except Fault lua_State :=
  if 0 ≤ idx then
    if idx.toNat ≤ L.stack.length then
      .ok { L with stack := L.stack.drop (L.stack.length - idx.toNat) }
    else
      .ok { L with stack := List.replicate (idx.toNat - L.stack.length) TValue.nil ++ L.stack }
  else if (-(idx + 1)).toNat ≤ L.stack.length then
    .ok { L with stack := L.stack.drop (-(idx + 1)).toNat }
  else .error Fault.apiMisuse

/-- The macro `lua_pop(L,n)`, which is `lua_settop(L, -(n)-1)` -/
def lua_pop (L : lua_State) (n : Int) : Except Fault lua_State :=
  lua_settop L (-(n) - 1)

def lua_pushnil (L : lua_State) : lua_State :=
  { L with stack := TValue.nil :: L.stack }

def lua_pushboolean (L : lua_State) (b : Bool) : lua_State :=
  { L with stack := TValue.boolean b :: L.stack }

def lua_pushnumber (L : lua_State) (n : lua_Number) : lua_State :=
  { L with stack := TValue.number n :: L.stack }

/-- Pushes an integer, which the VM keeps as a number -/
def lua_pushinteger (L : lua_State) (n : Int) : lua_State :=
  { L with stack := TValue.number (lua_Number.finite n) :: L.stack }

/-- Pushes a copy of a zero-terminated C string: the bytes before the first zero -/
def lua_pushstring (L : lua_State) (s : List Nat) : lua_State :=
  { L with stack := TValue.string (s.takeWhile (fun c => c != 0)) :: L.stack }

/-- Pushes a copy of the value at the index -/
def lua_pushvalue (L : lua_State) (idx : Int) : Except Fault lua_State :=
  match index2adr L idx with
  | some v => .ok { L with stack := v :: L.stack }
  | none => .error Fault.apiMisuse

/-- Creates an empty table and pushes it -/
def lua_newtable (L : lua_State) : lua_State :=
  { L with stack := TValue.table L.tables.length :: L.stack, tables := L.tables ++ [[]] }

/-- Raw lookup in a table -/
def luaH_get (t : Table) (k : TValue) : TValue :=
  match t.find? (fun p => p.1 = k) with
  | some p => p.2
  | none => TValue.nil

/-- Raw assignment in a table; assigning nil removes the key -/
def luaH_set (t : Table) (k v : TValue) : Table :=
  if v = TValue.nil then t.filter (fun p => p.1 ≠ k)
  else (k, v) :: t.filter (fun p => p.1 ≠ k)

/-- Replaces the key on top of the stack by the table's value for it, the table being at the index -/
def lua_rawget (L : lua_State) (idx : Int) : Except Fault lua_State :=
  match index2adr L idx, L.stack with
  | some (TValue.table r), k :: rest =>
    match L.tables[r]? with
    | some t => .ok { L with stack := luaH_get t k :: rest }
    | none => .error Fault.apiMisuse
  | _, _ => .error Fault.apiMisuse

/-- As `lua_rawget` on a table; indexing any other value raises a VM error -/
def lua_gettable (L : lua_State) (idx : Int) : Except Fault lua_State :=
  match index2adr L idx, L.stack with
  | some (TValue.table r), k :: rest =>
    match L.tables[r]? with
    | some t => .ok { L with stack := luaH_get t k :: rest }
    | none => .error Fault.apiMisuse
  | some _, _ :: _ => .error Fault.luaError
  | _, _ => .error Fault.apiMisuse

/-- Does `t[k] = v` for the table at the index, `v` being on top of the stack and `k` just
below it, and pops both; a nil or NaN key raises a VM error -/
def lua_rawset (L : lua_State) (idx : Int) : Except Fault lua_State :=
  match index2adr L idx, L.stack with
  | some (TValue.table r), v :: k :: rest =>
    match L.tables[r]? with
    | some t =>
      if k = TValue.nil ∨ k = TValue.number lua_Number.nan then .error Fault.luaError
      else .ok { L with stack := rest, tables := L.tables.set r (luaH_set t k v) }
    | none => .error Fault.apiMisuse
  | _, _ => .error Fault.apiMisuse

/-- Pushes the value of a global variable (nil when it was never set) -/
def lua_getglobal (L : lua_State) (name : String) : lua_State :=
  { L with stack := ((L.globals.lookup name).getD TValue.nil) :: L.stack }

/-- Pops a value and stores it in a global variable -/
def lua_setglobal (L : lua_State) (name : String) : Except Fault lua_State :=
  match L.stack with
  | v :: rest =>
    .ok { L with stack := rest, globals := (name, v) :: L.globals.filter (fun p => p.1 ≠ name) }
  | [] => .error Fault.apiMisuse

/-- True for a number and for a string the VM converts to a number -/
def lua_isnumber (str2d : List Nat → Option lua_Number) (L : lua_State) (idx : Int) : Bool :=
  match index2adr L idx with
  | some (TValue.number _) => true
  | some (TValue.string s) => (str2d s).isSome
  | _ => false

/-- The number at the index, after the VM's conversion of strings; 0 for anything else -/
def lua_tonumber (str2d : List Nat → Option lua_Number) (L : lua_State) (idx : Int) : lua_Number :=
  match index2adr L idx with
  | some (TValue.number n) => n
  | some (TValue.string s) => (str2d s).getD (lua_Number.finite 0)
  | _ => lua_Number.finite 0

def lua_isboolean (L : lua_State) (idx : Int) : Bool :=
  match index2adr L idx with
  | some (TValue.boolean _) => true
  | _ => false

/-- False for false and nil (and for no value), true for everything else -/
def lua_toboolean (L : lua_State) (idx : Int) : Bool :=
  match index2adr L idx with
  | some (TValue.boolean b) => b
  | some TValue.nil => false
  | none => false
  | _ => true

/-- True for a string and for a number (which the VM can always convert to a string) -/
def lua_isstring (L : lua_State) (idx : Int) : Bool :=
  match index2adr L idx with
  | some (TValue.string _) => true
  | some (TValue.number _) => true
  | _ => false

/-- The bytes of the string at the index with their count (`lua_tolstring`; `lua_strlen`
and `lua_tostring` before Lua 5.2).  A number would be converted by the VM's number
formatter, which is outside the model; `engine_popvalue` tests `lua_isnumber` first and
never asks for it. -/
def lua_tolstring (L : lua_State) (idx : Int) : Option (List Nat) :=
  match index2adr L idx with
  | some (TValue.string s) => some s
  | _ => none

def lua_isnil (L : lua_State) (idx : Int) : Bool :=
  match index2adr L idx with
  | some TValue.nil => true
  | _ => false

def lua_isnoneornil (L : lua_State) (idx : Int) : Bool :=
  match index2adr L idx with
  | some TValue.nil => true
  | none => true
  | _ => false

def lua_islightuserdata (L : lua_State) (idx : Int) : Bool :=
  match index2adr L idx with
  | some (TValue.lightuserdata _) => true
  | _ => false

/-- True for a full userdata and for a light one -/
def lua_isuserdata (L : lua_State) (idx : Int) : Bool :=
  match index2adr L idx with
  | some (TValue.userdata _) => true
  | some (TValue.lightuserdata _) => true
  | _ => false

/-- True for every function, script-defined or native -/
def lua_isfunction (L : lua_State) (idx : Int) : Bool :=
  match index2adr L idx with
  | some (TValue.lfunction _) => true
  | some (TValue.cfunction _) => true
  | _ => false

/-- True for a native function only -/
def lua_iscfunction (L : lua_State) (idx : Int) : Bool :=
  match index2adr L idx with
  | some (TValue.cfunction _) => true
  | _ => false

def lua_isthread (L : lua_State) (idx : Int) : Bool :=
  match index2adr L idx with
  | some (TValue.thread _) => true
  | _ => false

def lua_istable (L : lua_State) (idx : Int) : Bool :=
  match index2adr L idx with
  | some (TValue.table _) => true
  | _ => false

/-- Allocates a userdata block without a metatable and pushes it -/
def lua_newuserdata (L : lua_State) (d : engine_userdata) : lua_State :=
  { L with stack := TValue.userdata L.udata.length :: L.stack,
           udata := L.udata ++ [(TValue.nil, d)] }

/-- Pushes the metatable registered under `ENGINE_USERDATA_TYPE` (nil when none is) -/
def luaL_getmetatable (L : lua_State) : lua_State :=
  { L with stack := L.udata_meta :: L.stack }

/-- Pops a table or nil and makes it the metatable of the value at the index; the model
keeps metatables for userdata only -/
def lua_setmetatable (L : lua_State) (idx : Int) : Except Fault lua_State :=
  match index2adr L idx, L.stack with
  | some (TValue.userdata r), m :: rest =>
    match L.udata[r]? with
    | some d => .ok { L with stack := rest, udata := L.udata.set r (m, d.2) }
    | none => .error Fault.apiMisuse
  | some _, _ :: rest => .ok { L with stack := rest }
  | _, _ => .error Fault.apiMisuse

/-- The block of the userdata at the index when its metatable is the one registered under
`ENGINE_USERDATA_TYPE`; a VM error otherwise -/
def luaL_checkudata (L : lua_State) (idx : Int) : Except Fault engine_userdata :=
  match index2adr L idx with
  | some (TValue.userdata r) =>
    match L.udata[r]? with
    | some d => if d.1 ≠ TValue.nil ∧ d.1 = L.udata_meta then .ok d.2 else .error Fault.luaError
    | none => .error Fault.apiMisuse
  | some _ => .error Fault.luaError
  | none => .error Fault.apiMisuse

/-! ## What the source takes from `engine.h` and its sibling files -/

def USHRT_MAX : Nat := 65535

/-- Modelled from the spec: the macro `FUNCTION_REGISTRY` is defined outside the source under
study; it is the name of the "single well-known table" of §4.2, and any fixed name serves -/
def FUNCTION_REGISTRY : String := "__functions"

/-- Modelled from the spec: `engine_newvalue` is defined outside the source under study; the
value it returns is a Null until a branch gives it another tag (§4.3, "nil/none → Null") -/
def engine_newvalue : engine_value := ENGINE_NULL

/-- Modelled from the spec: `engine_swap` is defined outside the source under study; as the
comments at its call sites say, it exchanges the values in two stack slots -/
def engine_swap (L : lua_State) (a b : Int) : Except Fault lua_State :=
  match stack_slot L a, stack_slot L b with
  | some pa, some pb =>
    match L.stack[pa]?, L.stack[pb]? with
    | some va, some vb => .ok { L with stack := (L.stack.set pa vb).set pb va }
    | _, _ => .error Fault.apiMisuse
  | _, _ => .error Fault.apiMisuse

/-- Modelled from the spec: `engine_pushlambda` and `engine_pushreflect` are defined outside
the source under study; §4.4 says each "materializes a native closure stub", that is, pushes
one native function -/
def engine_pushstub (w : Bridge) (id : Nat) : Bridge :=
  { w with state := { w.state with stack := TValue.cfunction id :: w.state.stack } }

/-- The host's `NewGlobalRef`: one more strong reference to the object -/
def NewGlobalRef (w : Bridge) (obj : Nat) : Bridge × Nat :=
  ({ w with global_refs := obj :: w.global_refs }, obj)

/-- The C conversion `(uint32_t) d` of a double: truncation toward zero, kept modulo 2^32
(a value outside the range of `uint32_t`, undefined in C, gets its low 32 bits) -/
def double_to_uint32 (d : lua_Number) : Nat :=
  match d with
  | lua_Number.finite q => ((q.num.tdiv q.den) % (2 ^ 32 : Int)).toNat
  | _ => 0

/-- The C conversion `(double) i` of a `long`: exact up to 53 bits, rounded to the nearest
double (ties to even) beyond -/
def long_to_double (i : Int) : lua_Number :=
  let a := i.natAbs
  let e := Nat.log2 a
  if e ≤ 52 then lua_Number.finite i
  else
    let sh := e - 52
    let q := a / 2 ^ sh
    let r := a % 2 ^ sh
    let half := 2 ^ (sh - 1)
    let q1 := if half < r ∨ (r = half ∧ q % 2 = 1) then q + 1 else q
    lua_Number.finite (i.sign * ((q1 * 2 ^ sh : Nat) : Int))

/-! ## `engine_handleregistry` -/

/-- The function `engine_handleregistry`: interns the function on top of the stack.
The counter `function_index` is an unsigned 32-bit integer (§4.2).
Returns the value written through `v` and the new state. -/
def engine_handleregistry (str2d : List Nat → Option lua_Number) (w : Bridge) :
    Except Fault (engine_value × Bridge) :=
  if !lua_isfunction w.state (-1) && !lua_iscfunction w.state (-1) then
    .error (Fault.abort w)
  else do
    -- make copy of function, and put it on the top of the stack
    let L ← lua_pushvalue w.state (-1)
    -- push registry on the stack
    let L := lua_getglobal L FUNCTION_REGISTRY
    -- if the registry doesn't exist, create a new one
    let L ← (if lua_isnil L (-1) then do
        let L ← lua_pop L 1
        let L := lua_newtable L
        let L ← lua_pushvalue L (-1)
        lua_setglobal L FUNCTION_REGISTRY
      else pure L)
    let L ← engine_swap L (-1) (-2)
    let L ← lua_gettable L (-2)
    if lua_isnil L (-1) then do
      let L ← lua_pop L 1
      let L ← engine_swap L (-1) (-2)
      let function_index : Nat := (w.function_index + 1) % 2 ^ 32
      let L := lua_pushinteger L function_index
      let L ← engine_swap L (-1) (-2)
      let L ← lua_rawset L (-3)
      let L ← lua_pop L (-1)
      pure (ENGINE_LUA_FUNCTION function_index,
            { w with state := L, function_index := function_index })
    else do
      let func := double_to_uint32 (lua_tonumber str2d L (-1))
      let L ← lua_pop L 3
      pure (if func = 0 then ENGINE_NULL else ENGINE_LUA_FUNCTION func, { w with state := L })

/-! ## `engine_pushobject` -/

/-- The function `engine_pushobject`; the userdata block is allocated with the contents the
three assignments after `lua_newuserdata` give it -/
def engine_pushobject (w : Bridge) (inst : Nat) (obj : Nat) : Except Fault Bridge :=
  let (w, ref) := NewGlobalRef w obj
  let L := lua_newuserdata w.state { obj := ref, engine := inst, released := 0 }
  let L := luaL_getmetatable L
  match lua_setmetatable L (-2) with
  | .ok L => .ok { w with state := L }
  | .error e => .error e

/-! ## `engine_popvalue` -/

/-- The loop of the string branch, `for (t = 0; t < len - 1; t++)`, with `n` iterations
left: a zero byte at position `t` becomes a question mark -/
def popvalue_sanitize : Nat → Nat → List Nat → List Nat
  | 0, _, s => s
  | n + 1, t, s => popvalue_sanitize n (t + 1) (if s[t]? = some 0 then s.set t 63 else s)

/-- The buffer the string branch builds from the `len` bytes the VM reports: `len + 1`
bytes, the last one zero, the others copied and then passed through the loop -/
def popvalue_string (lstring : List Nat) : List Nat :=
  let len := lstring.length
  let s := lstring ++ [0]
  if 0 < len then popvalue_sanitize (len - 1) 0 s else s

/-- The length scan of the table branch, `while (1)` over `unsigned short idx`.  Each
round costs one unit of fuel; the scan leaves at `idx = USHRT_MAX - 1` at the latest, so
fuel `USHRT_MAX` is never used up. -/
def popvalue_scan : Nat → lua_State → Nat → Except Fault (lua_State × Nat)
  | 0, _, _ => .error Fault.outOfFuel
  | fuel + 1, L, idx =>
    if idx = USHRT_MAX - 1 then .ok (L, idx)
    else do
      let L := lua_pushinteger L idx
      let L ← lua_rawget L (-2)
      if lua_isnil L (-1) then do
        let L ← lua_pop L 1
        pure (L, idx)
      else do
        let L ← lua_pop L 1
        popvalue_scan fuel L ((idx + 1) % 65536)

/-- The element loop of the table branch, `for (i = 1; i <= idx; i++)`, with `n` rounds
left (`idx` is at most `USHRT_MAX - 2`, so `i` never wraps); `pop` is the recursive call -/
def popvalue_elems (pop : Bridge → Except Fault (engine_value × Bridge)) :
    Nat → Nat → Bridge → Except Fault (List (Option engine_value) × Bridge)
  | 0, _, w => .ok ([], w)
  | n + 1, i, w => do
    let L := lua_pushinteger w.state i
    let L ← lua_rawget L (-2)
    let (v, w) ← pop { w with state := L }
    let (vs, w) ← popvalue_elems pop n (i + 1) w
    pure (some v :: vs, w)

/-- The function `engine_popvalue`.  The first argument bounds the nesting of recursive
calls; `ASSERTEX(env)` is taken to pass (no host exception is pending). -/
def engine_popvalue (str2d : List Nat → Option lua_Number) :
    Nat → Bridge → Except Fault (engine_value × Bridge)
  | 0, _ => .error Fault.outOfFuel
  | fuel + 1, w =>
    let v := engine_newvalue
    let state := w.state
    if lua_isnumber str2d state (-1) then do
      let d := lua_tonumber str2d state (-1)
      let L ← lua_pop state 1
      pure (ENGINE_FLOATING d, { w with state := L })
    else if lua_isboolean state (-1) then do
      let i := lua_toboolean state (-1)
      let L ← lua_pop state 1
      pure (ENGINE_BOOLEAN i, { w with state := L })
    else if lua_isstring state (-1) then
      match lua_tolstring state (-1) with
      | none => .error Fault.apiMisuse
      | some lstring => do
        let s := popvalue_string lstring
        let L ← lua_pop state 1
        pure (ENGINE_STRING s, { w with state := L })
    else if lua_isnoneornil state (-1) then do
      let L ← lua_pop state 1
      pure (v, { w with state := L })
    else if lua_islightuserdata state (-1) then do
      let L ← lua_pop state 1
      pure (v, { w with state := L })
    else if lua_isuserdata state (-1) then do
      let d ← luaL_checkudata state (-1)
      let (w, ref) := NewGlobalRef w d.obj
      let L ← lua_pop state 1
      pure (ENGINE_JAVA_OBJECT ref, { w with state := L })
    else if lua_isfunction state (-1) then
      engine_handleregistry str2d w
    else if lua_iscfunction state (-1) then do
      let L ← lua_pop state 1
      pure (v, { w with state := L })
    else if lua_isthread state (-1) then do
      let L ← lua_pop state 1
      pure (v, { w with state := L })
    else if lua_istable state (-1) then
      if lua_gettop state ≥ 32 then do
        let L ← lua_pop state 1
        pure (v, { w with state := L })
      else do
        let (L, idx) ← popvalue_scan USHRT_MAX state 1
        let idx := idx - 1
        let (values, w) ← popvalue_elems (engine_popvalue str2d fuel) idx 1 { w with state := L }
        let L ← lua_pop w.state 1
        pure (ENGINE_ARRAY values, { w with state := L })
    else pure (v, w)

/-! ## `engine_pushvalue` -/

/-- The loop of the array branch, `for (i = 0; i < length; ++i)` over `unsigned short i`.
Each round costs one unit of fuel; `push` is the recursive call. -/
def pushvalue_loop (push : engine_value → Bridge → Except Fault Bridge)
    (values : List (Option engine_value)) : Nat → Nat → Bridge → Except Fault Bridge
  | 0, _, _ => .error Fault.outOfFuel
  | fuel + 1, i, w =>
    if i < values.length then do
      let L := lua_pushinteger w.state (i + 1)
      let w ← (match values[i]? with
        | some (some value) => push value { w with state := L }
        | _ => pure { w with state := lua_pushnil L })
      let L ← lua_rawset w.state (-3)
      pushvalue_loop push values fuel ((i + 1) % 65536) { w with state := L }
    else .ok w

/-- The function `engine_pushvalue`.  The first argument bounds the number of nested calls
and of loop rounds; `ASSERTEX(env)` is taken to pass. -/
def engine_pushvalue (inst : Nat) : Nat → engine_value → Bridge → Except Fault Bridge
  | 0, _, _ => .error Fault.outOfFuel
  | fuel + 1, value, w =>
    match value with
    | ENGINE_BOOLEAN i => .ok { w with state := lua_pushboolean w.state i }
    | ENGINE_FLOATING d => .ok { w with state := lua_pushnumber w.state d }
    | ENGINE_INTEGRAL i => .ok { w with state := lua_pushnumber w.state (long_to_double i) }
    | ENGINE_STRING str => .ok { w with state := lua_pushstring w.state str }
    | ENGINE_ARRAY values =>
      if lua_gettop w.state ≥ 32 then .ok { w with state := lua_pushnil w.state }
      else
        pushvalue_loop (engine_pushvalue inst fuel) values fuel 0
          { w with state := lua_newtable w.state }
    | ENGINE_JAVA_OBJECT obj => engine_pushobject w inst obj
    | ENGINE_LUA_GLOBALS => .ok { w with state := lua_pushnil w.state }
    | ENGINE_LUA_FUNCTION _ => .ok { w with state := lua_pushnil w.state }
    | ENGINE_JAVA_LAMBDA_FUNCTION lambda _ => .ok (engine_pushstub w lambda)
    | ENGINE_JAVA_REFLECT_FUNCTION reflect_method _ => .ok (engine_pushstub w reflect_method)
    | ENGINE_NULL => .ok { w with state := lua_pushnil w.state }

/-! ## The constructors of `LuaNValueFactory` -/

/-- What a call of a native method of `LuaNValueFactory` leaves: the object it returns
(`none` for null, otherwise the tagged value `engine_wrap` wraps), the host error raised by
`throw`, the number of tagged values `engine_newvalue` made, and the host objects
`NewGlobalRef` took a strong reference to -/
structure jni_return where
  ret : Option engine_value
  thrown : Option String
  newvalues : Nat
  acquired : List Nat

/-- Modelled from the spec: `throw` is defined outside the source under study; it raises the
host error with the given message (§7, "abort the current bridge operation loudly"), and
the method then returns null without having made a value -/
def throw (msg : String) : jni_return :=
  { ret := none, thrown := some msg, newvalues := 0, acquired := [] }

/-- A method that made one value with `engine_newvalue` and returns it wrapped -/
def engine_wrap (value : engine_value) : jni_return :=
  { ret := some value, thrown := none, newvalues := 1, acquired := [] }

/-- Modelled from the spec: `value_copy` is defined outside the source under study; §4.1
makes it a copy, deep for an Array, so the copy is a value equal to the original -/
def value_copy (value : engine_value) : engine_value := value

/-- The method `translate(boolean, ScriptValue)`; `jglobals` is `none` for a null handle and
otherwise names the instance of the wrapped globals value -/
def Java_ca_jarcode_ascript_luanative_LuaNValueFactory_translate__ZLca_jarcode_ascript_interfaces_ScriptValue_2
    (boolean : Bool) (jglobals : Option Nat) : jni_return :=
  match jglobals with
  | none => throw "tried to translate with null globals"
  | some _ => engine_wrap (ENGINE_BOOLEAN boolean)

/-- The method `translate(float, ScriptValue)`; the float is given by its value -/
def Java_ca_jarcode_ascript_luanative_LuaNValueFactory_translate__FLca_jarcode_ascript_interfaces_ScriptValue_2
    (f : lua_Number) (jglobals : Option Nat) : jni_return :=
  match jglobals with
  | none => throw "tried to translate with null globals"
  | some _ => engine_wrap (ENGINE_FLOATING f)

/-- The method `translate(double, ScriptValue)` -/
def Java_ca_jarcode_ascript_luanative_LuaNValueFactory_translate__DLca_jarcode_ascript_interfaces_ScriptValue_2
    (d : lua_Number) (jglobals : Option Nat) : jni_return :=
  match jglobals with
  | none => throw "tried to translate with null globals"
  | some _ => engine_wrap (ENGINE_FLOATING d)

/-- The method `translate(String, ScriptValue)`; `characters` is the zero-terminated buffer
`GetStringUTFChars` returns, of which `strlen` bytes and a terminator are kept -/
def Java_ca_jarcode_ascript_luanative_LuaNValueFactory_translate__Ljava_lang_String_2Lca_jarcode_ascript_interfaces_ScriptValue_2
    (characters : List Nat) (jglobals : Option Nat) : jni_return :=
  match jglobals with
  | none => throw "tried to translate with null globals"
  | some _ => engine_wrap (ENGINE_STRING (characters.takeWhile (fun c => c != 0) ++ [0]))

/-- The method `translate(int, ScriptValue)` -/
def Java_ca_jarcode_ascript_luanative_LuaNValueFactory_translate__ILca_jarcode_ascript_interfaces_ScriptValue_2
    (i : Int) (jglobals : Option Nat) : jni_return :=
  match jglobals with
  | none => throw "tried to translate with null globals"
  | some _ => engine_wrap (ENGINE_INTEGRAL i)

/-- The method `translate(long, ScriptValue)` -/
def Java_ca_jarcode_ascript_luanative_LuaNValueFactory_translate__JLca_jarcode_ascript_interfaces_ScriptValue_2
    (l : Int) (jglobals : Option Nat) : jni_return :=
  match jglobals with
  | none => throw "tried to translate with null globals"
  | some _ => engine_wrap (ENGINE_INTEGRAL l)

/-- The method `translate(short, ScriptValue)` -/
def Java_ca_jarcode_ascript_luanative_LuaNValueFactory_translate__SLca_jarcode_ascript_interfaces_ScriptValue_2
    (s : Int) (jglobals : Option Nat) : jni_return :=
  match jglobals with
  | none => throw "tried to translate with null globals"
  | some _ => engine_wrap (ENGINE_INTEGRAL s)

/-- The method `translate(byte, ScriptValue)` -/
def Java_ca_jarcode_ascript_luanative_LuaNValueFactory_translate__BLca_jarcode_ascript_interfaces_ScriptValue_2
    (b : Int) (jglobals : Option Nat) : jni_return :=
  match jglobals with
  | none => throw "tried to translate with null globals"
  | some _ => engine_wrap (ENGINE_INTEGRAL b)

/-- The method `list(ScriptValue[], ScriptValue)`; an element of the host array is `none`
where `engine_unwrap` gives a null pointer.  The Array gets `len` slots and the length
`(size_t) len`, whatever `len` is. -/
def Java_ca_jarcode_ascript_luanative_LuaNValueFactory_list
    (elements : List (Option engine_value)) (jglobals : Option Nat) : jni_return :=
  match jglobals with
  | none => throw "tried to translate with null globals"
  | some _ => engine_wrap (ENGINE_ARRAY (elements.map (fun element => element.map value_copy)))

/-- The method `nullValue(ScriptValue)` -/
def Java_ca_jarcode_ascript_luanative_LuaNValueFactory_nullValue
    (jglobals : Option Nat) : jni_return :=
  match jglobals with
  | none => throw "tried to translate with null globals"
  | some _ => engine_wrap engine_newvalue

/-- The method `translateObj(Object, ScriptValue)` -/
def Java_ca_jarcode_ascript_luanative_LuaNValueFactory_translateObj
    (obj : Nat) (jglobals : Option Nat) : jni_return :=
  match jglobals with
  | none => throw "tried to translate with null globals"
  | some _ => { engine_wrap (ENGINE_JAVA_OBJECT obj) with acquired := [obj] }

/-! ## Definitions used in the statements -/

/-- A conversion of strings to numbers that reads the plain decimal numerals, as every
version of the VM does, and nothing else; it instantiates `str2d` in closed examples -/
def decimal_str2d (s : List Nat) : Option lua_Number :=
  if s ≠ [] ∧ s.all (fun c => 48 ≤ c ∧ c ≤ 57) then
    some (lua_Number.finite ((s.foldl (fun a c => 10 * a + (c - 48)) 0 : Nat) : Int))
  else none

/-- A VM state with nothing in it -/
def empty_state : lua_State :=
  { stack := [], tables := [], udata := [], globals := [], udata_meta := TValue.nil }

/-- A process that has not run the bridge yet -/
def fresh_bridge : Bridge := { state := empty_state, function_index := 0, global_refs := [] }

/-- The same bridge with one more value on top of the VM stack -/
def with_top (v : TValue) (w : Bridge) : Bridge :=
  { w with state := { w.state with stack := v :: w.state.stack } }

/-- The scalar tagged values that survive a round trip: Null, Boolean, Floating, and a
String whose buffer is some bytes without a zero followed by the terminator and which the
VM does not read as a number -/
def roundtrip_scalar (str2d : List Nat → Option lua_Number) : engine_value → Prop
  | ENGINE_NULL => True
  | ENGINE_BOOLEAN _ => True
  | ENGINE_FLOATING _ => True
  | ENGINE_STRING str => ∃ content, str = content ++ [0] ∧ (∀ c ∈ content, c ≠ 0) ∧ str2d content = none
  | _ => False

/-- The functions of the VM, script-defined or native -/
def is_callable : TValue → Bool
  | TValue.lfunction _ => true
  | TValue.cfunction _ => true
  | _ => false

/-- The callable is not a key of the registry: the registry global is unset, or it is a
table of the heap whose raw lookup of the callable gives nil -/
def unregistered (L : lua_State) (f : TValue) : Prop :=
  match (L.globals.lookup FUNCTION_REGISTRY).getD TValue.nil with
  | TValue.nil => True
  | TValue.table r => ∃ t, L.tables[r]? = some t ∧ luaH_get t f = TValue.nil
  | _ => False

/-- Runs `engine_handleregistry` once in each VM state of the list, in order; between two
calls the VM may have changed in any way, the C side (`function_index`) is carried over -/
def intern_sequence (str2d : List Nat → Option lua_Number) :
    List lua_State → Bridge → Except Fault (List engine_value × Bridge)
  | [], w => .ok ([], w)
  | L :: Ls, w => do
    let (v, w) ← engine_handleregistry str2d { w with state := L }
    let (vs, w) ← intern_sequence str2d Ls w
    pure (v :: vs, w)

/-- The key `lua_pushinteger` makes of the integer `k` -/
def int_key (k : Nat) : TValue := TValue.number (lua_Number.finite ((k : Int) : Rat))

/-- The scalar values of the VM: numbers, booleans and strings -/
def is_scalar : TValue → Bool
  | TValue.number _ => true
  | TValue.boolean _ => true
  | TValue.string _ => true
  | _ => false

/-- What the first three branches of `engine_popvalue` return for a scalar of the VM (see
`popvalue_scalar`) -/
def decode_scalar (str2d : List Nat → Option lua_Number) : TValue → engine_value
  | TValue.number n => ENGINE_FLOATING n
  | TValue.boolean b => ENGINE_BOOLEAN b
  | TValue.string s =>
    match str2d s with
    | some n => ENGINE_FLOATING n
    | none => ENGINE_STRING (popvalue_string s)
  | _ => ENGINE_NULL

/-- A chain of `k` tables of the heap starting at table `r`, each holding the next one at
key 1 and nothing at key 2, and ending in a reference about which nothing is assumed -/
def table_chain (t : List Table) : Nat → Nat → Prop
  | 0, _ => True
  | k + 1, r => ∃ tb r1, t[r]? = some tb ∧ luaH_get tb (int_key 1) = TValue.table r1 ∧
      luaH_get tb (int_key 2) = TValue.nil ∧ table_chain t k r1

/-- The Null wrapped in `k` one-element Arrays -/
def nested_null : Nat → engine_value
  | 0 => ENGINE_NULL
  | k + 1 => ENGINE_ARRAY [some (nested_null k)]


/-- A heap of 32 tables, table `i` holding table `i + 1` at key 1 -/
def chain_heap : List Table :=
  (List.range 32).map (fun i => [(int_key 1, TValue.table (i + 1))])

/-- The tagged values of the tags Null, Boolean, Integral, Floating, String, HostObject,
InternedFunction, VMGlobalsHandle and Array, the elements of an Array being of these tags or
absent, and every Array having at most 65535 slots (the bound of the data model, §3) -/
inductive encodable : engine_value → Prop where
  | null : encodable ENGINE_NULL
  | boolean (i : Bool) : encodable (ENGINE_BOOLEAN i)
  | integral (i : Int) : encodable (ENGINE_INTEGRAL i)
  | floating (d : lua_Number) : encodable (ENGINE_FLOATING d)
  | string (str : List Nat) : encodable (ENGINE_STRING str)
  | java_object (obj : Nat) : encodable (ENGINE_JAVA_OBJECT obj)
  | lua_function (func : Nat) : encodable (ENGINE_LUA_FUNCTION func)
  | lua_globals : encodable ENGINE_LUA_GLOBALS
  | array (values : List (Option engine_value)) (hlen : values.length ≤ 65535)
      (helem : ∀ v, some v ∈ values → encodable v) : encodable (ENGINE_ARRAY values)

/-- What the theorem on `engine_pushvalue` says of one call: it returns, with one more value
on the stack and no table lost from the heap -/
def pushes_one (r : Except Fault Bridge) (w : Bridge) : Prop :=
  ∃ x w1, r = .ok w1 ∧ w1.state.stack = x :: w.state.stack ∧
    w.state.tables.length ≤ w1.state.tables.length

/-- The value `engine_pushvalue` pushes for an array slot holding nothing, a Null, a
Boolean, a Floating or a String (see `pushvalue_scalar_slot`) -/
def encode_slot : Option engine_value → TValue
  | some (ENGINE_BOOLEAN i) => TValue.boolean i
  | some (ENGINE_FLOATING d) => TValue.number d
  | some (ENGINE_STRING str) => TValue.string (str.takeWhile (fun c => c != 0))
  | _ => TValue.nil

/-- An array slot that is absent or holds a scalar that survives a round trip -/
def scalar_slot (str2d : List Nat → Option lua_Number) : Option engine_value → Prop
  | none => True
  | some v => roundtrip_scalar str2d v

/-- An array slot that holds a value other than Null -/
def present : Option engine_value → Bool
  | none => false
  | some ENGINE_NULL => false
  | some _ => true

/-- The table after the loop of `engine_pushvalue` has stored the slots `xs` at the keys
`i + 1`, `i + 2`, ... (see `pushvalue_loop_fills`) -/
def fill_table : List (Option engine_value) → Nat → Table → Table
  | [], _, tb => tb
  | x :: xs, i, tb => fill_table xs (i + 1) (luaH_set tb (int_key (i + 1)) (encode_slot x))

/-- The outcome of a constructor that refuses a null globals handle: the error is raised,
null is returned, no value was made and no reference taken -/
def null_globals_refused : jni_return :=
  { ret := none, thrown := some "tried to translate with null globals", newvalues := 0,
    acquired := [] }

/-- The outcomes of a call of `engine_popvalue` that has fuel enough: it returns, with the
stack one value shorter or empty, or it stops in an invalid use of the API or in an error
of the VM -/
def pops_or_faults (r : Except Fault (engine_value × Bridge)) (w : Bridge) : Prop :=
  (∃ v w1, r = .ok (v, w1) ∧
    (w1.state.stack = w.state.stack.tail ∨ w1.state.stack = [])) ∨
  r = .error Fault.apiMisuse ∨ r = .error Fault.luaError

/-- Arrays nested `k + 1` deep: the Array of level `k` is empty, each other one holds the
Array of the next level as its only element -/
def array_chain : Nat → engine_value
  | 0 => ENGINE_ARRAY []
  | k + 1 => ENGINE_ARRAY [some (array_chain k)]

/-- What `engine_pushvalue` pushes for `array_chain k` at stack depth `d`: nil when `32 ≤ d`;
otherwise a table, one of those of the heap from position `base` on, that holds at key 1
what is pushed for the next level at depth `d + 2` (nil when there is no next level) -/
def encoded_chain (tables : List Table) (base : Nat) : Nat → Nat → TValue → Prop
  | 0, d, v =>
    if 32 ≤ d then v = TValue.nil
    else ∃ r tb, v = TValue.table r ∧ base ≤ r ∧ tables[r]? = some tb ∧
      luaH_get tb (int_key 1) = TValue.nil
  | k + 1, d, v =>
    if 32 ≤ d then v = TValue.nil
    else ∃ r tb, v = TValue.table r ∧ base ≤ r ∧ tables[r]? = some tb ∧
      encoded_chain tables base k (d + 2) (luaH_get tb (int_key 1)) ∧
      luaH_get tb (int_key 2) = TValue.nil

/-- A table with the value true at each of the keys 1 to 65534 -/
def full_table : Table := fill_table (List.replicate 65534 (some (ENGINE_BOOLEAN true))) 0 []

theorem takeWhile_content (content : List Nat) (h : ∀ c ∈ content, c ≠ 0) :
    (content ++ [0]).takeWhile (fun c => c != 0) = content := by
  induction content with
  | nil => simp
  | cons a l ih =>
    have ha : a ≠ 0 := h a (by simp)
    have ih1 := ih (fun c hc => h c (by simp [hc]))
    simp [List.takeWhile_cons, ha, ih1]

theorem popvalue_sanitize_id (n : Nat) : ∀ (t : Nat) (s : List Nat),
    (∀ i, t ≤ i → i < t + n → s[i]? ≠ some 0) → popvalue_sanitize n t s = s := by
  induction n with
  | zero => intro t s _; rfl
  | succ n ih =>
    intro t s h
    have h0 : s[t]? ≠ some 0 := h t (le_refl _) (by omega)
    simp only [popvalue_sanitize, h0, if_false]
    exact ih (t + 1) s (fun i h1 h2 => h i (by omega) (by omega))

theorem popvalue_string_id (content : List Nat) (h : ∀ c ∈ content, c ≠ 0) :
    popvalue_string content = content ++ [0] := by
  unfold popvalue_string
  simp only
  split
  · apply popvalue_sanitize_id
    intro i _ hi
    have hlt : i < content.length := by omega
    intro hget
    rw [List.getElem?_append_left hlt] at hget
    rw [List.getElem?_eq_getElem hlt] at hget
    exact h _ (List.getElem_mem hlt) (by simpa using hget)
  · rfl

@[simp] theorem index2adr_top (a : TValue) (rest : List TValue) (t u g m) :
    index2adr ⟨a :: rest, t, u, g, m⟩ (-1) = some a := by
  simp [index2adr, stack_slot]

@[simp] theorem lua_pop_one (a : TValue) (rest : List TValue) (t u g m) :
    lua_pop ⟨a :: rest, t, u, g, m⟩ 1 = .ok ⟨rest, t, u, g, m⟩ := by
  simp [lua_pop, lua_settop]

@[simp] theorem index2adr_second (a b : TValue) (rest : List TValue) (t u g m) :
    index2adr ⟨a :: b :: rest, t, u, g, m⟩ (-2) = some b := by
  simp [index2adr, stack_slot]

@[simp] theorem index2adr_third (a b c : TValue) (rest : List TValue) (t u g m) :
    index2adr ⟨a :: b :: c :: rest, t, u, g, m⟩ (-3) = some c := by
  simp [index2adr, stack_slot]

@[simp] theorem lua_pop_three (a b c : TValue) (rest : List TValue) (t u g m) :
    lua_pop ⟨a :: b :: c :: rest, t, u, g, m⟩ 3 = .ok ⟨rest, t, u, g, m⟩ := by
  simp [lua_pop, lua_settop]

@[simp] theorem lua_pop_minus_one (stack : List TValue) (t u g m) :
    lua_pop ⟨stack, t, u, g, m⟩ (-1) = .ok ⟨[], t, u, g, m⟩ := by
  simp [lua_pop, lua_settop]

@[simp] theorem lua_pushvalue_top (a : TValue) (rest : List TValue) (t u g m) :
    lua_pushvalue ⟨a :: rest, t, u, g, m⟩ (-1) = .ok ⟨a :: a :: rest, t, u, g, m⟩ := by
  simp [lua_pushvalue, index2adr_top]

@[simp] theorem engine_swap_top (a b : TValue) (rest : List TValue) (t u g m) :
    engine_swap ⟨a :: b :: rest, t, u, g, m⟩ (-1) (-2) = .ok ⟨b :: a :: rest, t, u, g, m⟩ := by
  simp [engine_swap, stack_slot]

theorem lua_gettable_second (k : TValue) (r : Nat) (rest : List TValue) (t u g m) (tb : Table)
    (h : t[r]? = some tb) :
    lua_gettable ⟨k :: TValue.table r :: rest, t, u, g, m⟩ (-2)
      = .ok ⟨luaH_get tb k :: TValue.table r :: rest, t, u, g, m⟩ := by
  simp [lua_gettable, h]

theorem lua_rawget_second (k : TValue) (r : Nat) (rest : List TValue) (t u g m) (tb : Table)
    (h : t[r]? = some tb) :
    lua_rawget ⟨k :: TValue.table r :: rest, t, u, g, m⟩ (-2)
      = .ok ⟨luaH_get tb k :: TValue.table r :: rest, t, u, g, m⟩ := by
  simp [lua_rawget, h]

theorem lua_rawset_third (v : TValue) (n : Rat) (r : Nat) (rest : List TValue) (t u g m) (tb : Table)
    (h : t[r]? = some tb) :
    lua_rawset ⟨v :: TValue.number (lua_Number.finite n) :: TValue.table r :: rest, t, u, g, m⟩ (-3)
      = .ok ⟨TValue.table r :: rest, t.set r (luaH_set tb (TValue.number (lua_Number.finite n)) v), u, g, m⟩ := by
  simp [lua_rawset, h]

theorem lua_isfunction_callable (f : TValue) (rest : List TValue) (t u g m) (hf : is_callable f = true) :
    lua_isfunction ⟨f :: rest, t, u, g, m⟩ (-1) = true := by
  cases f <;> simp [is_callable] at hf <;> simp [lua_isfunction, index2adr_top]

/-- The absent branch when the registry table exists -/
theorem handleregistry_absent_table (str2d : List Nat → Option lua_Number)
    (f : TValue) (rest : List TValue) (t u g m) (fi : Nat) (refs : List Nat) (r : Nat) (tb : Table)
    (hf : is_callable f = true) (hg : g.lookup FUNCTION_REGISTRY = some (TValue.table r))
    (htb : t[r]? = some tb) (hget : luaH_get tb f = TValue.nil) :
    engine_handleregistry str2d ⟨⟨f :: rest, t, u, g, m⟩, fi, refs⟩
      = .ok (ENGINE_LUA_FUNCTION ((fi + 1) % 2 ^ 32),
          ⟨⟨[], t.set r (luaH_set tb (TValue.number (lua_Number.finite (((fi + 1) % 2 ^ 32 : Nat) : Int))) f),
            u, g, m⟩, (fi + 1) % 2 ^ 32, refs⟩) := by
  unfold engine_handleregistry
  simp only [lua_isfunction_callable f rest t u g m hf, Bool.not_true, Bool.false_and]
  simp [lua_getglobal, hg, bind, Except.bind, lua_isnil, index2adr_top, pure, Except.pure,
    lua_gettable_second _ _ _ _ _ _ _ _ htb, hget, lua_pop_one, lua_pushinteger,
    lua_rawset_third _ _ _ _ _ _ _ _ _ htb]

/-- The absent branch when the registry table does not exist yet -/
theorem handleregistry_absent_new (str2d : List Nat → Option lua_Number)
    (f : TValue) (rest : List TValue) (t u g m) (fi : Nat) (refs : List Nat)
    (hf : is_callable f = true) (hg : (g.lookup FUNCTION_REGISTRY).getD TValue.nil = TValue.nil) :
    engine_handleregistry str2d ⟨⟨f :: rest, t, u, g, m⟩, fi, refs⟩
      = .ok (ENGINE_LUA_FUNCTION ((fi + 1) % 2 ^ 32),
          ⟨⟨[], t ++ [luaH_set [] (TValue.number (lua_Number.finite (((fi + 1) % 2 ^ 32 : Nat) : Int))) f],
            u, (FUNCTION_REGISTRY, TValue.table t.length) :: g.filter (fun p => p.1 ≠ FUNCTION_REGISTRY), m⟩,
            (fi + 1) % 2 ^ 32, refs⟩) := by
  unfold engine_handleregistry
  simp only [lua_isfunction_callable f rest t u g m hf, Bool.not_true, Bool.false_and]
  have h1 : (t ++ [([] : Table)])[t.length]? = some [] := by simp
  simp [lua_getglobal, hg, bind, Except.bind, lua_isnil, index2adr_top, pure, Except.pure,
    lua_newtable, lua_setglobal,
    lua_gettable_second _ _ _ _ _ _ _ _ h1, luaH_get, lua_pop_one, lua_pushinteger,
    lua_rawset_third _ _ _ _ _ _ _ _ _ h1]

theorem handleregistry_absent (str2d : List Nat → Option lua_Number) (L : lua_State) (fi : Nat)
    (refs : List Nat) (f : TValue) (rest : List TValue) (hf : is_callable f = true)
    (hs : L.stack = f :: rest) (hu : unregistered L f) :
    ∃ L1, engine_handleregistry str2d ⟨L, fi, refs⟩
        = .ok (ENGINE_LUA_FUNCTION ((fi + 1) % 2 ^ 32), ⟨L1, (fi + 1) % 2 ^ 32, refs⟩) ∧
      L1.stack = [] := by
  obtain ⟨stack, t, u, g, m⟩ := L
  simp only at hs
  subst hs
  unfold unregistered at hu
  simp only at hu
  cases hg : (List.lookup FUNCTION_REGISTRY g).getD TValue.nil with
  | nil => exact ⟨_, handleregistry_absent_new str2d f rest t u g m fi refs hf hg, rfl⟩
  | table r =>
    rw [hg] at hu
    obtain ⟨tb, htb, hget⟩ := hu
    have hg1 : List.lookup FUNCTION_REGISTRY g = some (TValue.table r) := by
      cases hl : List.lookup FUNCTION_REGISTRY g with
      | none => simp [hl] at hg
      | some x => simp [hl] at hg; rw [hg]
    exact ⟨_, handleregistry_absent_table str2d f rest t u g m fi refs r tb hf hg1 htb hget, rfl⟩
  | _ => rw [hg] at hu; exact hu.elim

theorem intern_sequence_counts (str2d : List Nat → Option lua_Number) :
    ∀ (Ls : List lua_State) (w : Bridge),
    (∀ L ∈ Ls, ∃ f rest, L.stack = f :: rest ∧ is_callable f = true ∧ unregistered L f) →
    w.function_index + Ls.length < 2 ^ 32 →
    ∃ w1, intern_sequence str2d Ls w
        = .ok ((List.range' (w.function_index + 1) Ls.length).map ENGINE_LUA_FUNCTION, w1) ∧
      w1.function_index = w.function_index + Ls.length := by
  intro Ls
  induction Ls with
  | nil => intro w _ _; exact ⟨w, rfl, rfl⟩
  | cons L Ls ih =>
    intro w hL hlen
    obtain ⟨f, rest, hs, hf, hu⟩ := hL L (by simp)
    obtain ⟨L1, h1, _⟩ := handleregistry_absent str2d L w.function_index w.global_refs f rest hf hs hu
    have hmod : (w.function_index + 1) % 2 ^ 32 = w.function_index + 1 := by
      apply Nat.mod_eq_of_lt
      simp only [List.length_cons] at hlen
      omega
    rw [hmod] at h1
    obtain ⟨w2, h2, h3⟩ := ih ⟨L1, w.function_index + 1, w.global_refs⟩
      (fun L' hL' => hL L' (by simp [hL'])) (by simp only [List.length_cons] at hlen ⊢; omega)
    refine ⟨w2, ?_, ?_⟩
    · simp only [intern_sequence, bind, Except.bind, pure, Except.pure]
      rw [h1]
      simp only [h2, List.length_cons, List.range'_succ, List.map_cons]
    · simp only [h3, List.length_cons]; omega

theorem lua_pushinteger_nat (stack : List TValue) (t u g m) (k : Nat) :
    lua_pushinteger ⟨stack, t, u, g, m⟩ (k : Int) = ⟨int_key k :: stack, t, u, g, m⟩ := rfl

theorem lua_isnil_top (x : TValue) (rest : List TValue) (t u g m) :
    lua_isnil ⟨x :: rest, t, u, g, m⟩ (-1) = decide (x = TValue.nil) := by
  cases x <;> simp [lua_isnil]

theorem popvalue_scalar (str2d : List Nat → Option lua_Number) (fuel : Nat) (x : TValue)
    (stack : List TValue) (t u g m) (fi : Nat) (refs : List Nat) (hx : is_scalar x = true) :
    engine_popvalue str2d (fuel + 1) ⟨⟨x :: stack, t, u, g, m⟩, fi, refs⟩
      = .ok (decode_scalar str2d x, ⟨⟨stack, t, u, g, m⟩, fi, refs⟩) := by
  cases x <;> simp [is_scalar] at hx
  · simp [engine_popvalue, lua_isnumber, lua_isboolean, lua_toboolean, decode_scalar, bind,
      Except.bind, pure, Except.pure]
  · simp [engine_popvalue, lua_isnumber, lua_tonumber, decode_scalar, bind,
      Except.bind, pure, Except.pure]
  · rename_i s
    cases hs : str2d s with
    | none =>
      simp [engine_popvalue, lua_isnumber, lua_isboolean, lua_isstring, lua_tolstring, hs,
        decode_scalar, bind, Except.bind, pure, Except.pure]
    | some n =>
      simp [engine_popvalue, lua_isnumber, lua_tonumber, hs, decode_scalar, bind,
        Except.bind, pure, Except.pure]

theorem popvalue_scan_spec (r : Nat) (rest : List TValue) (t u g m) (tb : Table) (n : Nat)
    (htb : t[r]? = some tb) (hn : n ≤ 65533)
    (hend : n = 65533 ∨ luaH_get tb (int_key (n + 1)) = TValue.nil) :
    ∀ (c idx fuel : Nat), idx + c = n + 1 → c < fuel →
      (∀ k, idx ≤ k → k ≤ n → luaH_get tb (int_key k) ≠ TValue.nil) →
      popvalue_scan fuel ⟨TValue.table r :: rest, t, u, g, m⟩ idx
        = .ok (⟨TValue.table r :: rest, t, u, g, m⟩, n + 1) := by
  intro c
  induction c with
  | zero =>
    intro idx fuel hidx hfuel _
    obtain ⟨fuel, rfl⟩ : ∃ f, fuel = f + 1 := ⟨fuel - 1, by omega⟩
    have hidx1 : idx = n + 1 := by omega
    subst hidx1
    unfold popvalue_scan
    by_cases h : n + 1 = USHRT_MAX - 1
    · simp [h]
    · have hnil : luaH_get tb (int_key (n + 1)) = TValue.nil := by
        rcases hend with h1 | h1
        · exact absurd (by simp [h1, USHRT_MAX]) h
        · exact h1
      rw [if_neg h]
      simp only [lua_pushinteger_nat, lua_rawget_second _ _ _ _ _ _ _ _ htb, bind, Except.bind,
        lua_isnil_top, hnil, decide_True, if_true, lua_pop_one, pure, Except.pure]
  | succ c ih =>
    intro idx fuel hidx hfuel hk
    obtain ⟨fuel, rfl⟩ : ∃ f, fuel = f + 1 := ⟨fuel - 1, by omega⟩
    have h : ¬ idx = USHRT_MAX - 1 := by simp only [USHRT_MAX]; omega
    have hget := hk idx (le_refl _) (by omega)
    have hmod : (idx + 1) % 65536 = idx + 1 := Nat.mod_eq_of_lt (by omega)
    unfold popvalue_scan
    rw [if_neg h]
    simp only [lua_pushinteger_nat, lua_rawget_second _ _ _ _ _ _ _ _ htb, bind, Except.bind,
      lua_isnil_top, hget, decide_False, lua_pop_one, hmod]
    exact ih (idx + 1) fuel (by omega) (by omega) (fun k h1 h2 => hk k (by omega) h2)

theorem popvalue_elems_scalars (str2d : List Nat → Option lua_Number) (fuel : Nat)
    (r : Nat) (rest : List TValue) (t u g m) (fi : Nat) (refs : List Nat) (tb : Table)
    (htb : t[r]? = some tb) :
    ∀ (cnt i : Nat), (∀ k, i ≤ k → k < i + cnt → is_scalar (luaH_get tb (int_key k)) = true) →
      popvalue_elems (engine_popvalue str2d (fuel + 1)) cnt i
          ⟨⟨TValue.table r :: rest, t, u, g, m⟩, fi, refs⟩
        = .ok ((List.range' i cnt).map (fun k => some (decode_scalar str2d (luaH_get tb (int_key k)))),
            ⟨⟨TValue.table r :: rest, t, u, g, m⟩, fi, refs⟩) := by
  intro cnt
  induction cnt with
  | zero => intro i _; rfl
  | succ cnt ih =>
    intro i hk
    unfold popvalue_elems
    simp only [lua_pushinteger_nat, lua_rawget_second _ _ _ _ _ _ _ _ htb, bind, Except.bind,
      popvalue_scalar str2d fuel _ _ t u g m fi refs (hk i (le_refl _) (by omega)),
      ih (i + 1) (fun k h1 h2 => hk k (by omega) (by omega)), pure, Except.pure,
      List.range'_succ, List.map_cons]

theorem popvalue_table_scalars (str2d : List Nat → Option lua_Number) (fuel : Nat)
    (r : Nat) (rest : List TValue) (t u g m) (fi : Nat) (refs : List Nat) (tb : Table) (n : Nat)
    (htb : t[r]? = some tb) (hdepth : rest.length + 1 < 32) (hn : n ≤ 65533)
    (hk : ∀ k, 1 ≤ k → k ≤ n → is_scalar (luaH_get tb (int_key k)) = true)
    (hend : n = 65533 ∨ luaH_get tb (int_key (n + 1)) = TValue.nil) :
    engine_popvalue str2d (fuel + 2) ⟨⟨TValue.table r :: rest, t, u, g, m⟩, fi, refs⟩
      = .ok (ENGINE_ARRAY
          ((List.range' 1 n).map (fun k => some (decode_scalar str2d (luaH_get tb (int_key k))))),
          ⟨⟨rest, t, u, g, m⟩, fi, refs⟩) := by
  have hscan := popvalue_scan_spec r rest t u g m tb n htb hn hend n 1 USHRT_MAX (by omega)
    (by simp only [USHRT_MAX]; omega)
    (fun k h1 h2 h3 => by have := hk k h1 h2; rw [h3] at this; simp [is_scalar] at this)
  have helems := popvalue_elems_scalars str2d fuel r rest t u g m fi refs tb htb n 1
    (fun k h1 h2 => hk k h1 (by omega))
  have hd : ¬ (lua_gettop ⟨TValue.table r :: rest, t, u, g, m⟩ ≥ 32) := by
    simp only [lua_gettop, List.length_cons]; omega
  unfold engine_popvalue
  simp only [lua_isnumber, lua_isboolean, lua_isstring, lua_isnoneornil, lua_islightuserdata,
    lua_isuserdata, lua_isfunction, lua_iscfunction, lua_isthread, lua_istable, index2adr_top,
    if_true, hd, if_false, hscan, bind, Except.bind, Nat.add_sub_cancel, helems, lua_pop_one,
    pure, Except.pure, Bool.false_eq_true]

theorem popvalue_table_guard (str2d : List Nat → Option lua_Number) (fuel : Nat)
    (r : Nat) (rest : List TValue) (t u g m) (fi : Nat) (refs : List Nat)
    (hdepth : 32 ≤ rest.length + 1) :
    engine_popvalue str2d (fuel + 1) ⟨⟨TValue.table r :: rest, t, u, g, m⟩, fi, refs⟩
      = .ok (ENGINE_NULL, ⟨⟨rest, t, u, g, m⟩, fi, refs⟩) := by
  have hd : lua_gettop ⟨TValue.table r :: rest, t, u, g, m⟩ ≥ 32 := by
    simp only [lua_gettop, List.length_cons]; omega
  unfold engine_popvalue
  simp only [lua_isnumber, lua_isboolean, lua_isstring, lua_isnoneornil, lua_islightuserdata,
    lua_isuserdata, lua_isfunction, lua_iscfunction, lua_isthread, lua_istable, index2adr_top,
    if_true, hd, if_false, bind, Except.bind, lua_pop_one, engine_newvalue,
    pure, Except.pure, Bool.false_eq_true]

theorem popvalue_table_chain (str2d : List Nat → Option lua_Number) (t u g m) (fi : Nat)
    (refs : List Nat) :
    ∀ (k r : Nat) (rest : List TValue) (fuel : Nat), rest.length + 1 + k = 32 →
      table_chain t k r →
      engine_popvalue str2d (fuel + k + 1) ⟨⟨TValue.table r :: rest, t, u, g, m⟩, fi, refs⟩
        = .ok (nested_null k, ⟨⟨rest, t, u, g, m⟩, fi, refs⟩) := by
  intro k
  induction k with
  | zero =>
    intro r rest fuel hd _
    exact popvalue_table_guard str2d fuel r rest t u g m fi refs (by omega)
  | succ k ih =>
    intro r rest fuel hd hc
    obtain ⟨tb, r1, htb, h1, h2, hc1⟩ := hc
    have hscan := popvalue_scan_spec r rest t u g m tb 1 htb (by omega) (Or.inr h2) 1 1 USHRT_MAX
      (by omega) (by simp only [USHRT_MAX]; omega)
      (fun k ha hb => by
        have : k = 1 := by omega
        rw [this, h1]; simp)
    have hrec := ih r1 (TValue.table r :: rest) fuel (by simp only [List.length_cons]; omega) hc1
    have hd1 : ¬ (lua_gettop ⟨TValue.table r :: rest, t, u, g, m⟩ ≥ 32) := by
      simp only [lua_gettop, List.length_cons]; omega
    have hf : fuel + (k + 1) + 1 = (fuel + k + 1) + 1 := by omega
    rw [hf]
    unfold engine_popvalue
    simp only [lua_isnumber, lua_isboolean, lua_isstring, lua_isnoneornil, lua_islightuserdata,
      lua_isuserdata, lua_isfunction, lua_iscfunction, lua_isthread, lua_istable, index2adr_top,
      if_true, hd1, if_false, hscan, bind, Except.bind, Nat.add_sub_cancel, popvalue_elems,
      lua_pushinteger_nat, lua_rawget_second _ _ _ _ _ _ _ _ htb, h1, hrec, lua_pop_one,
      pure, Except.pure, Bool.false_eq_true, nested_null]

theorem lua_pushinteger_succ (stack : List TValue) (t u g m) (i : Nat) :
    lua_pushinteger ⟨stack, t, u, g, m⟩ ((i : Int) + 1) = ⟨int_key (i + 1) :: stack, t, u, g, m⟩ := by
  simp [lua_pushinteger, int_key]

theorem lua_rawset_int_key (v : TValue) (k r : Nat) (rest : List TValue) (t u g m) (tb : Table)
    (h : t[r]? = some tb) :
    lua_rawset ⟨v :: int_key k :: TValue.table r :: rest, t, u, g, m⟩ (-3)
      = .ok ⟨TValue.table r :: rest, t.set r (luaH_set tb (int_key k) v), u, g, m⟩ :=
  lua_rawset_third v _ r rest t u g m tb h

theorem pushvalue_loop_pushes (push : engine_value → Bridge → Except Fault Bridge)
    (values : List (Option engine_value)) (hlen : values.length ≤ 65535)
    (hpush : ∀ v, some v ∈ values → ∀ w, pushes_one (push v w) w)
    (r : Nat) (rest : List TValue) :
    ∀ (c i fuel : Nat) (w : Bridge), i + c = values.length → c < fuel →
      w.state.stack = TValue.table r :: rest → r < w.state.tables.length →
      ∃ w1, pushvalue_loop push values fuel i w = .ok w1 ∧
        w1.state.stack = TValue.table r :: rest ∧
        w.state.tables.length ≤ w1.state.tables.length := by
  intro c
  induction c with
  | zero =>
    intro i fuel w hi hf hs _
    obtain ⟨fuel, rfl⟩ : ∃ f, fuel = f + 1 := ⟨fuel - 1, by omega⟩
    have : ¬ i < values.length := by omega
    exact ⟨w, by simp [pushvalue_loop, this], hs, le_refl _⟩
  | succ c ih =>
    intro i fuel w hi hf hs hr
    obtain ⟨fuel, rfl⟩ : ∃ f, fuel = f + 1 := ⟨fuel - 1, by omega⟩
    obtain ⟨⟨stack, t, u, g, m⟩, fi, refs⟩ := w
    simp only at hs hr
    subst hs
    have hlt : i < values.length := by omega
    have hmod : (i + 1) % 65536 = i + 1 := Nat.mod_eq_of_lt (by omega)
    -- the state after the element is pushed
    have hval : ∃ x w2, (match values[i]? with
          | some (some value) => push value ⟨⟨int_key (i + 1) :: TValue.table r :: rest, t, u, g, m⟩, fi, refs⟩
          | _ => pure ⟨lua_pushnil ⟨int_key (i + 1) :: TValue.table r :: rest, t, u, g, m⟩, fi, refs⟩)
          = Except.ok w2 ∧ w2.state.stack = x :: int_key (i + 1) :: TValue.table r :: rest ∧
            t.length ≤ w2.state.tables.length := by
      cases hv : values[i]? with
      | none => exact ⟨_, _, rfl, rfl, le_refl _⟩
      | some o =>
        cases o with
        | none => exact ⟨_, _, rfl, rfl, le_refl _⟩
        | some v =>
          have hmem : some v ∈ values := List.getElem?_mem hv
          obtain ⟨x, w2, h1, h2, h3⟩ := hpush v hmem
            ⟨⟨int_key (i + 1) :: TValue.table r :: rest, t, u, g, m⟩, fi, refs⟩
          exact ⟨x, w2, h1, h2, h3⟩
    obtain ⟨x, ⟨⟨stack2, t2, u2, g2, m2⟩, fi2, refs2⟩, h1, h2, h3⟩ := hval
    simp only at h2 h3
    subst h2
    obtain ⟨tb, htb⟩ : ∃ tb, t2[r]? = some tb := ⟨t2[r], List.getElem?_eq_getElem (by omega)⟩
    obtain ⟨w1, h4, h5, h6⟩ := ih (i + 1) fuel
      ⟨⟨TValue.table r :: rest, t2.set r (luaH_set tb (int_key (i + 1)) x), u2, g2, m2⟩, fi2, refs2⟩
      (by omega) (by omega) rfl (by simp only [List.length_set]; omega)
    refine ⟨w1, ?_, h5, ?_⟩
    · unfold pushvalue_loop
      simp only [hlt, if_true, Nat.cast_add, Nat.cast_one, lua_pushinteger_succ, bind, Except.bind]
      rw [h1]
      simp only [lua_rawset_int_key _ _ _ _ _ _ _ _ _ htb, hmod]
      exact h4
    · simp only [List.length_set] at h6
      simp only
      omega

theorem uniform_fuel (P : Nat → engine_value → Prop) :
    ∀ (values : List (Option engine_value)),
      (∀ v, some v ∈ values → ∃ F, ∀ fuel, F ≤ fuel → P fuel v) →
      ∃ F, ∀ v, some v ∈ values → ∀ fuel, F ≤ fuel → P fuel v := by
  intro values
  induction values with
  | nil => intro _; exact ⟨0, fun v hv => by cases hv⟩
  | cons o l ih =>
    intro h
    obtain ⟨F1, h1⟩ := ih (fun v hv => h v (List.mem_cons_of_mem _ hv))
    cases o with
    | none =>
      refine ⟨F1, fun v hv fuel hf => ?_⟩
      rcases List.mem_cons.mp hv with h2 | h2
      · cases h2
      · exact h1 v h2 fuel hf
    | some v0 =>
      obtain ⟨F0, h0⟩ := h v0 (List.mem_cons_self _ _)
      refine ⟨max F0 F1, fun v hv fuel hf => ?_⟩
      rcases List.mem_cons.mp hv with h2 | h2
      · cases h2
        exact h0 fuel (le_trans (le_max_left _ _) hf)
      · exact h1 v h2 fuel (le_trans (le_max_right _ _) hf)

theorem pushobject_pushes (inst obj : Nat) (w : Bridge) :
    pushes_one (engine_pushobject w inst obj) w := by
  obtain ⟨⟨stack, t, u, g, m⟩, fi, refs⟩ := w
  have h1 : (u ++ [(TValue.nil, ({ obj := obj, engine := inst, released := 0 } : engine_userdata))])[u.length]?
      = some (TValue.nil, { obj := obj, engine := inst, released := 0 }) := by simp
  refine ⟨TValue.userdata u.length,
    ⟨⟨TValue.userdata u.length :: stack, t,
      (u ++ [(TValue.nil, (⟨obj, inst, 0⟩ : engine_userdata))]).set u.length
        (m, (⟨obj, inst, 0⟩ : engine_userdata)), g, m⟩, fi, obj :: refs⟩,
    ?_, rfl, le_refl _⟩
  simp [engine_pushobject, NewGlobalRef, lua_newuserdata, luaL_getmetatable, lua_setmetatable, h1]

theorem pushvalue_pushes (inst : Nat) (v : engine_value) (hv : encodable v) :
    ∃ F, ∀ fuel, F ≤ fuel → ∀ w, pushes_one (engine_pushvalue inst fuel v w) w := by
  induction hv with
  | array values hlen helem ih =>
    obtain ⟨F, hF⟩ := uniform_fuel
      (fun fuel v => ∀ w, pushes_one (engine_pushvalue inst fuel v w) w) values ih
    refine ⟨max F (values.length + 1) + 1, fun fuel hf w => ?_⟩
    obtain ⟨fuel, rfl⟩ : ∃ f, fuel = f + 1 := ⟨fuel - 1, by omega⟩
    have hF1 : F ≤ fuel := by have := le_max_left F (values.length + 1); omega
    have hF2 : values.length < fuel := by have := le_max_right F (values.length + 1); omega
    obtain ⟨⟨stack, t, u, g, m⟩, fi, refs⟩ := w
    unfold engine_pushvalue
    by_cases hd : lua_gettop ⟨stack, t, u, g, m⟩ ≥ 32
    · simp only [hd, if_true]
      exact ⟨TValue.nil, _, rfl, rfl, le_refl _⟩
    · simp only [hd, if_false]
      obtain ⟨w1, h1, h2, h3⟩ := pushvalue_loop_pushes (engine_pushvalue inst fuel) values hlen
        (fun v hv w => hF v hv fuel hF1 w) t.length stack values.length 0 fuel
        ⟨lua_newtable ⟨stack, t, u, g, m⟩, fi, refs⟩ (by omega) hF2 rfl
        (by simp [lua_newtable])
      refine ⟨TValue.table t.length, w1, h1, h2, ?_⟩
      simp only [lua_newtable, List.length_append, List.length_singleton] at h3
      simp only
      omega
  | java_object obj =>
    refine ⟨1, fun fuel hf w => ?_⟩
    obtain ⟨fuel, rfl⟩ : ∃ f, fuel = f + 1 := ⟨fuel - 1, by omega⟩
    exact pushobject_pushes inst obj w
  | _ =>
    refine ⟨1, fun fuel hf w => ?_⟩
    obtain ⟨fuel, rfl⟩ : ∃ f, fuel = f + 1 := ⟨fuel - 1, by omega⟩
    exact ⟨_, _, rfl, rfl, le_refl _⟩

theorem find_filter_ne (tb : Table) (k k1 : TValue) (h : k1 ≠ k) :
    (tb.filter (fun p => decide (p.1 ≠ k))).find? (fun p => decide (p.1 = k1))
      = tb.find? (fun p => decide (p.1 = k1)) := by
  induction tb with
  | nil => rfl
  | cons p l ih =>
    by_cases hp : p.1 = k
    · have h1 : ¬ p.1 = k1 := fun h1 => h (h1 ▸ hp)
      have e1 : decide (p.1 ≠ k) = false := by simp [hp]
      have e2 : decide (p.1 = k1) = false := by simp [h1]
      rw [List.filter_cons, if_neg (by simp [e1])]
      simp only [List.find?_cons, e2, ih]
    · have e1 : decide (p.1 ≠ k) = true := by simp [hp]
      rw [List.filter_cons, if_pos e1]
      by_cases hp1 : p.1 = k1
      · have e2 : decide (p.1 = k1) = true := by simp [hp1]
        simp only [List.find?_cons, e2]
      · have e2 : decide (p.1 = k1) = false := by simp [hp1]
        simp only [List.find?_cons, e2, ih]

theorem find_filter_eq (tb : Table) (k : TValue) :
    (tb.filter (fun p => decide (p.1 ≠ k))).find? (fun p => decide (p.1 = k)) = none := by
  rw [List.find?_eq_none]
  intro p hp
  have := (List.mem_filter.mp hp).2
  simpa using this

theorem luaH_get_set_ne (tb : Table) (k k1 v : TValue) (h : k1 ≠ k) :
    luaH_get (luaH_set tb k v) k1 = luaH_get tb k1 := by
  have hk : decide ((k, v).1 = k1) = false := by
    have : ¬ k = k1 := fun h1 => h h1.symm
    simp [this]
  by_cases hv : v = TValue.nil
  · simp only [luaH_set, hv, if_true, luaH_get]
    rw [find_filter_ne tb k k1 h]
  · simp only [luaH_set, hv, if_false, luaH_get]
    simp only [List.find?_cons, hk]
    rw [find_filter_ne tb k k1 h]

theorem luaH_get_set_eq (tb : Table) (k v : TValue) :
    luaH_get (luaH_set tb k v) k = v := by
  by_cases hv : v = TValue.nil
  · simp only [luaH_set, hv, if_true, luaH_get]
    rw [find_filter_eq]
  · simp only [luaH_set, hv, if_false, luaH_get]
    simp only [List.find?_cons, decide_True]

theorem int_key_inj (a b : Nat) : int_key a = int_key b ↔ a = b := by
  simp [int_key]

theorem fill_table_outside : ∀ (xs : List (Option engine_value)) (i : Nat) (tb : Table) (k : Nat),
    (k ≤ i ∨ i + xs.length < k) →
    luaH_get (fill_table xs i tb) (int_key k) = luaH_get tb (int_key k) := by
  intro xs
  induction xs with
  | nil => intro i tb k _; rfl
  | cons x xs ih =>
    intro i tb k hk
    simp only [fill_table]
    rw [ih (i + 1) _ k (by simp only [List.length_cons] at hk; omega)]
    apply luaH_get_set_ne
    intro h
    rw [int_key_inj] at h
    simp only [List.length_cons] at hk
    omega

theorem fill_table_inside : ∀ (xs : List (Option engine_value)) (i : Nat) (tb : Table) (j : Nat)
    (x : Option engine_value), xs[j]? = some x →
    luaH_get (fill_table xs i tb) (int_key (i + j + 1)) = encode_slot x := by
  intro xs
  induction xs with
  | nil => intro i tb j x h; simp at h
  | cons x0 xs ih =>
    intro i tb j x h
    simp only [fill_table]
    cases j with
    | zero =>
      simp only [List.getElem?_cons_zero, Option.some.injEq] at h
      subst h
      rw [fill_table_outside xs (i + 1) _ (i + 0 + 1) (Or.inl (by omega))]
      exact luaH_get_set_eq _ _ _
    | succ j =>
      simp only [List.getElem?_cons_succ] at h
      have := ih (i + 1) (luaH_set tb (int_key (i + 1)) (encode_slot x0)) j x h
      have e : i + (j + 1) + 1 = i + 1 + j + 1 := by omega
      rw [e]; exact this

theorem set_of_getElem? {α : Type} : ∀ (l : List α) (r : Nat) (a : α), l[r]? = some a → l.set r a = l := by
  intro l
  induction l with
  | nil => intro r a h; simp at h
  | cons x l ih =>
    intro r a h
    cases r with
    | zero => simp at h; simp [h]
    | succ r => simp at h; simp [ih r a h]

theorem pushvalue_scalar_slot (str2d : List Nat → Option lua_Number) (inst pf : Nat)
    (v : engine_value) (hv : roundtrip_scalar str2d v) (stack : List TValue) (t u g m)
    (fi : Nat) (refs : List Nat) :
    engine_pushvalue inst (pf + 1) v ⟨⟨stack, t, u, g, m⟩, fi, refs⟩
      = .ok ⟨⟨encode_slot (some v) :: stack, t, u, g, m⟩, fi, refs⟩ := by
  cases v <;> simp only [roundtrip_scalar] at hv <;> rfl

theorem pushvalue_loop_fills (str2d : List Nat → Option lua_Number) (inst pf : Nat)
    (values : List (Option engine_value)) (hlen : values.length ≤ 65535)
    (hval : ∀ x ∈ values, scalar_slot str2d x)
    (r : Nat) (rest : List TValue) (u g m) (fi : Nat) (refs : List Nat) :
    ∀ (xs : List (Option engine_value)) (i fuel : Nat) (t : List Table) (tb : Table),
      values.drop i = xs → xs.length < fuel → t[r]? = some tb →
      pushvalue_loop (engine_pushvalue inst (pf + 1)) values fuel i
          ⟨⟨TValue.table r :: rest, t, u, g, m⟩, fi, refs⟩
        = .ok ⟨⟨TValue.table r :: rest, t.set r (fill_table xs i tb), u, g, m⟩, fi, refs⟩ := by
  intro xs
  induction xs with
  | nil =>
    intro i fuel t tb hdrop hf htb
    obtain ⟨fuel, rfl⟩ : ∃ f, fuel = f + 1 := ⟨fuel - 1, by omega⟩
    have hge : ¬ i < values.length := by
      have := List.drop_eq_nil_iff.mp hdrop
      omega
    have hset : t.set r tb = t := set_of_getElem? t r tb htb
    simp only [pushvalue_loop, hge, if_false, fill_table, hset]
  | cons x xs ih =>
    intro i fuel t tb hdrop hf htb
    obtain ⟨fuel, rfl⟩ : ∃ f, fuel = f + 1 := ⟨fuel - 1, by omega⟩
    have hlt : i < values.length := by
      by_contra hc
      have : values.drop i = [] := List.drop_eq_nil_iff.mpr (by omega)
      rw [this] at hdrop; cases hdrop
    have hx : values[i]? = some x := by
      have := List.getElem?_drop values i 0
      rw [hdrop] at this
      simpa using this.symm
    have hdrop1 : values.drop (i + 1) = xs := by
      have := List.drop_drop 1 i values
      rw [hdrop] at this
      simpa [Nat.add_comm] using this.symm
    have hmod : (i + 1) % 65536 = i + 1 := Nat.mod_eq_of_lt (by omega)
    have hpush : (match values[i]? with
          | some (some value) => engine_pushvalue inst (pf + 1) value
              ⟨⟨int_key (i + 1) :: TValue.table r :: rest, t, u, g, m⟩, fi, refs⟩
          | _ => pure ⟨lua_pushnil ⟨int_key (i + 1) :: TValue.table r :: rest, t, u, g, m⟩, fi, refs⟩)
          = Except.ok ⟨⟨encode_slot x :: int_key (i + 1) :: TValue.table r :: rest, t, u, g, m⟩, fi, refs⟩ := by
      rw [hx]
      cases x with
      | none => rfl
      | some v =>
        exact pushvalue_scalar_slot str2d inst pf v (hval _ (List.getElem?_mem hx)) _ t u g m fi refs
    have hset : (t.set r (luaH_set tb (int_key (i + 1)) (encode_slot x)))[r]?
        = some (luaH_set tb (int_key (i + 1)) (encode_slot x)) := by
      obtain ⟨hlt1, _⟩ := List.getElem?_eq_some.mp htb
      simp [List.getElem?_set_self, hlt1]
    have hrec := ih (i + 1) fuel (t.set r (luaH_set tb (int_key (i + 1)) (encode_slot x))) _
      hdrop1 (by simp only [List.length_cons] at hf; omega) hset
    unfold pushvalue_loop
    simp only [hlt, if_true, Nat.cast_add, Nat.cast_one, lua_pushinteger_succ, bind, Except.bind]
    rw [hpush]
    simp only [lua_rawset_int_key _ _ _ _ _ _ _ _ _ htb, hmod, hrec, List.set_set, fill_table]

theorem takeWhile_getElem? {α : Type} (p : α → Bool) : ∀ (l : List α) (j : Nat),
    j < (l.takeWhile p).length → (l.takeWhile p)[j]? = l[j]? := by
  intro l
  induction l with
  | nil => intro j h; simp at h
  | cons x l ih =>
    intro j h
    by_cases hp : p x = true
    · rw [List.takeWhile_cons_of_pos hp] at h ⊢
      cases j with
      | zero => simp
      | succ j =>
        simp only [List.length_cons] at h
        simp only [List.getElem?_cons_succ]
        exact ih j (by omega)
    · rw [List.takeWhile_cons_of_neg hp] at h
      simp at h

theorem takeWhile_length_le {α : Type} (p : α → Bool) : ∀ (l : List α),
    (l.takeWhile p).length ≤ l.length := by
  intro l
  induction l with
  | nil => simp
  | cons x l ih =>
    by_cases hp : p x = true
    · rw [List.takeWhile_cons_of_pos hp]; simp only [List.length_cons]; omega
    · rw [List.takeWhile_cons_of_neg hp]; simp

theorem takeWhile_stop {α : Type} (p : α → Bool) : ∀ (l : List α),
    (l.takeWhile p).length < l.length →
    ∃ x, l[(l.takeWhile p).length]? = some x ∧ p x = false := by
  intro l
  induction l with
  | nil => intro h; simp at h
  | cons x l ih =>
    intro h
    by_cases hp : p x = true
    · rw [List.takeWhile_cons_of_pos hp] at h ⊢
      simp only [List.length_cons] at h ⊢
      simp only [List.getElem?_cons_succ]
      exact ih (by omega)
    · rw [List.takeWhile_cons_of_neg hp]
      exact ⟨x, by simp, by simpa using hp⟩

theorem encode_present (str2d : List Nat → Option lua_Number) (x : Option engine_value)
    (hp : present x = true) (hs : scalar_slot str2d x) :
    is_scalar (encode_slot x) = true ∧ some (decode_scalar str2d (encode_slot x)) = x := by
  cases x with
  | none => simp [present] at hp
  | some v =>
    cases v <;> simp only [scalar_slot, roundtrip_scalar] at hs <;> simp [present] at hp
    · exact ⟨rfl, rfl⟩
    · exact ⟨rfl, rfl⟩
    · obtain ⟨content, rfl, hz, hn⟩ := hs
      refine ⟨rfl, ?_⟩
      simp only [encode_slot, takeWhile_content content hz, decode_scalar, hn,
        popvalue_string_id content hz]

theorem encode_absent (x : Option engine_value) (hp : present x = false) :
    encode_slot x = TValue.nil := by
  cases x with
  | none => rfl
  | some v => cases v <;> first | rfl | simp [present] at hp

theorem pushvalue_array_fills (str2d : List Nat → Option lua_Number) (inst pf : Nat)
    (values : List (Option engine_value)) (hlen : values.length ≤ 65535)
    (hval : ∀ x ∈ values, scalar_slot str2d x) (hpf : values.length ≤ pf)
    (stack : List TValue) (t u g m) (fi : Nat) (refs : List Nat) (hdepth : stack.length < 32) :
    engine_pushvalue inst (pf + 2) (ENGINE_ARRAY values) ⟨⟨stack, t, u, g, m⟩, fi, refs⟩
      = .ok ⟨⟨TValue.table t.length :: stack, (t ++ [[]]).set t.length (fill_table values 0 []),
          u, g, m⟩, fi, refs⟩ := by
  have hd : ¬ (lua_gettop ⟨stack, t, u, g, m⟩ ≥ 32) := by simp only [lua_gettop]; omega
  have h := pushvalue_loop_fills str2d inst pf values hlen hval t.length stack u g m fi refs
    values 0 (pf + 1) (t ++ [[]]) [] rfl (by omega) (by simp)
  unfold engine_pushvalue
  simp only [hd, if_false, lua_newtable]
  exact h

theorem roundtrip_array (str2d : List Nat → Option lua_Number) (inst pf fuel : Nat)
    (values : List (Option engine_value)) (hlen : values.length ≤ 65535)
    (hval : ∀ x ∈ values, scalar_slot str2d x) (hpf : values.length ≤ pf)
    (stack : List TValue) (t u g m) (fi : Nat) (refs : List Nat) (hdepth : stack.length ≤ 30) :
    (engine_pushvalue inst (pf + 2) (ENGINE_ARRAY values) ⟨⟨stack, t, u, g, m⟩, fi, refs⟩
        >>= engine_popvalue str2d (fuel + 2))
      = .ok (ENGINE_ARRAY ((values.takeWhile present).take 65533),
          ⟨⟨stack, (t ++ [[]]).set t.length (fill_table values 0 []), u, g, m⟩, fi, refs⟩) := by
  rw [pushvalue_array_fills str2d inst pf values hlen hval hpf stack t u g m fi refs (by omega)]
  have hm : (values.takeWhile present).length ≤ values.length := takeWhile_length_le _ _
  have htb : ((t ++ [[]]).set t.length (fill_table values 0 []))[t.length]?
      = some (fill_table values 0 []) := by
    simp [List.getElem?_set_self]
  have hget : ∀ j, j < (values.takeWhile present).length → ∃ x, values[j]? = some x ∧
      present x = true ∧ scalar_slot str2d x := by
    intro j hj
    have h1 := takeWhile_getElem? present values j hj
    have h2 : (values.takeWhile present)[j]? = some ((values.takeWhile present)[j]) :=
      List.getElem?_eq_getElem hj
    have h3 : (values.takeWhile present)[j] ∈ values.takeWhile present := List.getElem_mem hj
    refine ⟨_, by rw [← h1, h2], List.mem_takeWhile_imp h3, hval _ ?_⟩
    exact List.getElem?_mem (by rw [← h1, h2])
  have hpop := popvalue_table_scalars str2d fuel t.length stack
    ((t ++ [[]]).set t.length (fill_table values 0 [])) u g m fi refs (fill_table values 0 [])
    (min (values.takeWhile present).length 65533) htb (by omega) (by omega)
    (by
      intro k h1 h2
      obtain ⟨x, hx, hp, hs⟩ := hget (k - 1) (by omega)
      have := fill_table_inside values 0 [] (k - 1) x hx
      have e : 0 + (k - 1) + 1 = k := by omega
      rw [e] at this
      rw [this]
      exact (encode_present str2d x hp hs).1)
    (by
      by_cases hc : 65533 ≤ (values.takeWhile present).length
      · left; omega
      · right
        have e : min (values.takeWhile present).length 65533 = (values.takeWhile present).length := by
          omega
        rw [e]
        by_cases hl : (values.takeWhile present).length < values.length
        · obtain ⟨x, hx, hp⟩ := takeWhile_stop present values hl
          have := fill_table_inside values 0 [] _ x hx
          rw [Nat.zero_add] at this
          rw [this]
          exact encode_absent x hp
        · rw [fill_table_outside values 0 [] _ (Or.inr (by omega))]
          rfl)
  simp only [bind, Except.bind]
  rw [hpop]
  congr 3
  apply List.ext_getElem?
  intro j
  by_cases hj : j < min (values.takeWhile present).length 65533
  · obtain ⟨x, hx, hp, hs⟩ := hget j (by omega)
    have h1 := takeWhile_getElem? present values j (by omega)
    have hf := fill_table_inside values 0 [] j x hx
    rw [Nat.zero_add] at hf
    rw [List.getElem?_map, List.getElem?_range' _ _ hj, List.getElem?_take_of_lt (by omega), h1, hx]
    simp only [Option.map_some', Nat.one_mul]
    have e : 1 + j = j + 1 := by omega
    rw [e, hf, (encode_present str2d x hp hs).2]
  · rw [List.getElem?_eq_none (by simp; omega), List.getElem?_eq_none (by simp; omega)]

theorem takeWhile_replicate_self {α : Type} (p : α → Bool) (a : α) (h : p a = true) :
    ∀ n, (List.replicate n a).takeWhile p = List.replicate n a := by
  intro n
  induction n with
  | zero => rfl
  | succ n ih => rw [List.replicate_succ, List.takeWhile_cons_of_pos h, ih]

theorem roundtrip_replicate (str2d : List Nat → Option lua_Number) (inst pf fuel n : Nat)
    (hn : n ≤ 65535) (hpf : n ≤ pf) (b : Bool) :
    (engine_pushvalue inst (pf + 2) (ENGINE_ARRAY (List.replicate n (some (ENGINE_BOOLEAN b))))
          fresh_bridge >>= engine_popvalue str2d (fuel + 2)).map Prod.fst
      = .ok (ENGINE_ARRAY (List.replicate (min 65533 n) (some (ENGINE_BOOLEAN b)))) := by
  have h := roundtrip_array str2d inst pf fuel (List.replicate n (some (ENGINE_BOOLEAN b)))
    (by rw [List.length_replicate]; exact hn)
    (fun x hx => by rw [List.eq_of_mem_replicate hx]; exact trivial)
    (by rw [List.length_replicate]; exact hpf) [] [] [] [] TValue.nil 0 [] (by decide)
  rw [takeWhile_replicate_self present (some (ENGINE_BOOLEAN b)) rfl n, List.take_replicate] at h
  show Except.map Prod.fst (engine_pushvalue inst (pf + 2) _ ⟨⟨[], [], [], [], TValue.nil⟩, 0, []⟩
    >>= engine_popvalue str2d (fuel + 2)) = _
  rw [h]
  rfl

theorem double_to_uint32_nat (n : Nat) (h : n < 2 ^ 32) :
    double_to_uint32 (lua_Number.finite (n : Rat)) = n := by
  have h1 : ((n : Rat)).num = (n : Int) := Rat.num_natCast n
  have h2 : ((n : Rat)).den = 1 := Rat.den_natCast n
  simp only [double_to_uint32, h1, h2, Nat.cast_one, Int.tdiv_one]
  have h3 : ((n : Int)) % (2 ^ 32 : Int) = (n : Int) := by
    apply Int.emod_eq_of_lt (by omega) (by exact_mod_cast h)
  rw [h3]; simp

/-- The branch of `engine_handleregistry` for a callable that is a key of the registry -/
theorem handleregistry_present (str2d : List Nat → Option lua_Number)
    (f x : TValue) (rest : List TValue) (t u g m) (fi : Nat) (refs : List Nat) (r : Nat) (tb : Table)
    (hf : is_callable f = true) (hg : g.lookup FUNCTION_REGISTRY = some (TValue.table r))
    (htb : t[r]? = some tb) (hget : luaH_get tb f = x) (hx : x ≠ TValue.nil) :
    engine_handleregistry str2d ⟨⟨f :: rest, t, u, g, m⟩, fi, refs⟩
      = .ok (if double_to_uint32
                (lua_tonumber str2d ⟨x :: TValue.table r :: f :: rest, t, u, g, m⟩ (-1)) = 0
              then ENGINE_NULL
              else ENGINE_LUA_FUNCTION (double_to_uint32
                (lua_tonumber str2d ⟨x :: TValue.table r :: f :: rest, t, u, g, m⟩ (-1))),
          ⟨⟨rest, t, u, g, m⟩, fi, refs⟩) := by
  unfold engine_handleregistry
  simp only [lua_isfunction_callable f rest t u g m hf, Bool.not_true, Bool.false_and]
  simp [lua_getglobal, hg, bind, Except.bind, lua_isnil, index2adr_top, pure, Except.pure,
    lua_gettable_second _ _ _ _ _ _ _ _ htb, hget]
  cases x <;> simp at hx <;> simp

theorem lookup_getD_table (g : List (String × TValue)) (r : Nat)
    (hg : (List.lookup FUNCTION_REGISTRY g).getD TValue.nil = TValue.table r) :
    List.lookup FUNCTION_REGISTRY g = some (TValue.table r) := by
  cases hl : List.lookup FUNCTION_REGISTRY g with
  | none => simp [hl] at hg
  | some x => simp [hl] at hg; rw [hg]

theorem handleregistry_callable_no_abort (str2d : List Nat → Option lua_Number)
    (f : TValue) (rest : List TValue) (t u g m) (fi : Nat) (refs : List Nat)
    (hf : is_callable f = true) (w1 : Bridge) :
    engine_handleregistry str2d ⟨⟨f :: rest, t, u, g, m⟩, fi, refs⟩ ≠ .error (Fault.abort w1) := by
  cases hg : (List.lookup FUNCTION_REGISTRY g).getD TValue.nil with
  | nil => rw [handleregistry_absent_new str2d f rest t u g m fi refs hf hg]; simp
  | table r =>
    have hg1 := lookup_getD_table g r hg
    cases htb : t[r]? with
    | none =>
      unfold engine_handleregistry
      simp only [lua_isfunction_callable f rest t u g m hf, Bool.not_true, Bool.false_and]
      simp [lua_getglobal, hg1, bind, Except.bind, lua_isnil, index2adr_top, pure, Except.pure,
        lua_gettable, htb]
    | some tb =>
      by_cases hx : luaH_get tb f = TValue.nil
      · rw [handleregistry_absent_table str2d f rest t u g m fi refs r tb hf hg1 htb hx]; simp
      · rw [handleregistry_present str2d f _ rest t u g m fi refs r tb hf hg1 htb rfl hx]; simp
  | _ =>
    unfold engine_handleregistry
    simp only [lua_isfunction_callable f rest t u g m hf, Bool.not_true, Bool.false_and]
    simp [lua_getglobal, hg, bind, Except.bind, lua_isnil, index2adr_top, pure, Except.pure,
      lua_gettable]

theorem handleregistry_not_callable (str2d : List Nat → Option lua_Number) (w : Bridge)
    (h : ¬ ∃ f rest, w.state.stack = f :: rest ∧ is_callable f = true) :
    engine_handleregistry str2d w = .error (Fault.abort w) := by
  obtain ⟨⟨stack, t, u, g, m⟩, fi, refs⟩ := w
  have h1 : lua_isfunction ⟨stack, t, u, g, m⟩ (-1) = false ∧
      lua_iscfunction ⟨stack, t, u, g, m⟩ (-1) = false := by
    cases stack with
    | nil => simp [lua_isfunction, lua_iscfunction, index2adr, stack_slot]
    | cons f rest =>
      have hf : is_callable f = false := by
        cases hc : is_callable f with
        | false => rfl
        | true => exact absurd ⟨f, rest, rfl, hc⟩ h
      cases f <;> simp [is_callable] at hf <;> simp [lua_isfunction, lua_iscfunction]
  simp [engine_handleregistry, h1.1, h1.2]

theorem list_length (elements : List (Option engine_value)) (inst : Nat) :
    ∃ values, (Java_ca_jarcode_ascript_luanative_LuaNValueFactory_list elements (some inst)).ret
        = some (ENGINE_ARRAY values) ∧ values.length = elements.length :=
  ⟨_, rfl, by simp⟩

theorem pushvalue_loop_never_ends (push : engine_value → Bridge → Except Fault Bridge)
    (n : Nat) (hn : 65536 ≤ n) (r : Nat) (rest : List TValue) (u g m) (fi : Nat) (refs : List Nat) :
    ∀ (fuel i : Nat) (t : List Table) (tb : Table), i < 65536 → t[r]? = some tb →
      pushvalue_loop push (List.replicate n none) fuel i
          ⟨⟨TValue.table r :: rest, t, u, g, m⟩, fi, refs⟩ = .error Fault.outOfFuel := by
  intro fuel
  induction fuel with
  | zero => intro i t tb _ _; rfl
  | succ fuel ih =>
    intro i t tb hi htb
    have hlt : i < (List.replicate n (none : Option engine_value)).length := by
      rw [List.length_replicate]; omega
    have hget : (List.replicate n (none : Option engine_value))[i]? = some none := by
      rw [List.getElem?_replicate]; simp; omega
    have hset : (t.set r (luaH_set tb (int_key (i + 1)) TValue.nil))[r]?
        = some (luaH_set tb (int_key (i + 1)) TValue.nil) := by
      obtain ⟨hlt1, _⟩ := List.getElem?_eq_some.mp htb
      simp [List.getElem?_set_self, hlt1]
    have hrec := ih ((i + 1) % 65536) (t.set r (luaH_set tb (int_key (i + 1)) TValue.nil)) _
      (Nat.mod_lt _ (by decide)) hset
    unfold pushvalue_loop
    simp only [hlt, if_true, Nat.cast_add, Nat.cast_one, lua_pushinteger_succ, bind, Except.bind,
      hget, pure, Except.pure, lua_pushnil, lua_rawset_int_key _ _ _ _ _ _ _ _ _ htb]
    exact hrec

theorem pushvalue_never_ends (inst n : Nat) (hn : 65536 ≤ n) (w : Bridge)
    (hd : w.state.stack.length < 32) :
    ∀ fuel, engine_pushvalue inst fuel (ENGINE_ARRAY (List.replicate n none)) w
      = .error Fault.outOfFuel := by
  intro fuel
  cases fuel with
  | zero => rfl
  | succ fuel =>
    obtain ⟨⟨stack, t, u, g, m⟩, fi, refs⟩ := w
    have hg : ¬ (lua_gettop ⟨stack, t, u, g, m⟩ ≥ 32) := by
      simp only [lua_gettop]; simp only at hd; omega
    unfold engine_pushvalue
    simp only [hg, if_false, lua_newtable]
    exact pushvalue_loop_never_ends _ n hn t.length stack u g m fi refs fuel 0 (t ++ [[]]) []
      (by decide) (by simp)

theorem lua_rawget_pushed (k : TValue) (stack : List TValue) (t u g m) :
    (∃ r rest tb, stack = TValue.table r :: rest ∧ t[r]? = some tb ∧
      lua_rawget ⟨k :: stack, t, u, g, m⟩ (-2) = .ok ⟨luaH_get tb k :: stack, t, u, g, m⟩) ∨
    lua_rawget ⟨k :: stack, t, u, g, m⟩ (-2) = .error Fault.apiMisuse := by
  cases stack with
  | nil => right; simp [lua_rawget, index2adr, stack_slot]
  | cons x rest =>
    cases x with
    | table r =>
      cases htb : t[r]? with
      | none => right; simp [lua_rawget, htb]
      | some tb => left; exact ⟨r, rest, tb, rfl, htb, lua_rawget_second k r rest t u g m tb htb⟩
    | _ => right; simp [lua_rawget]

theorem lua_pop_one_cases (L : lua_State) :
    (∃ x rest, L.stack = x :: rest ∧ lua_pop L 1 = .ok { L with stack := rest }) ∨
    (L.stack = [] ∧ lua_pop L 1 = .error Fault.apiMisuse) := by
  obtain ⟨stack, t, u, g, m⟩ := L
  cases stack with
  | nil => right; simp [lua_pop, lua_settop]
  | cons x rest => left; exact ⟨x, rest, rfl, lua_pop_one x rest t u g m⟩

theorem popvalue_scan_outcome : ∀ (fuel : Nat) (L : lua_State) (idx : Nat),
    idx ≤ 65534 → 65534 - idx < fuel →
    (∃ idx1, popvalue_scan fuel L idx = .ok (L, idx1)) ∨
    popvalue_scan fuel L idx = .error Fault.apiMisuse := by
  intro fuel
  induction fuel with
  | zero => intro L idx _ h; omega
  | succ fuel ih =>
    intro L idx h1 h2
    obtain ⟨stack, t, u, g, m⟩ := L
    unfold popvalue_scan
    by_cases h : idx = USHRT_MAX - 1
    · left; exact ⟨idx, by simp [h]⟩
    · rw [if_neg h]
      have hlt : idx < 65534 := by simp only [USHRT_MAX] at h; omega
      have hmod : (idx + 1) % 65536 = idx + 1 := Nat.mod_eq_of_lt (by omega)
      rcases lua_rawget_pushed (int_key idx) stack t u g m with ⟨r, rest, tb, hs, htb, hr⟩ | hr
      · subst hs
        simp only [lua_pushinteger_nat, hr, bind, Except.bind, lua_isnil_top, lua_pop_one, hmod,
          pure, Except.pure]
        by_cases hn : luaH_get tb (int_key idx) = TValue.nil
        · left; exact ⟨idx, by simp [hn]⟩
        · simp only [hn, decide_False, Bool.false_eq_true, if_false]
          exact ih _ (idx + 1) (by omega) (by omega)
      · right
        simp only [lua_pushinteger_nat, hr, bind, Except.bind]

/-- What `engine_handleregistry` can do when a function is on top of the stack -/
theorem handleregistry_outcome (str2d : List Nat → Option lua_Number)
    (f : TValue) (rest : List TValue) (t u g m) (fi : Nat) (refs : List Nat)
    (hf : is_callable f = true) :
    (∃ v w1, engine_handleregistry str2d ⟨⟨f :: rest, t, u, g, m⟩, fi, refs⟩ = .ok (v, w1) ∧
      (w1.state.stack = rest ∨ w1.state.stack = [])) ∨
    engine_handleregistry str2d ⟨⟨f :: rest, t, u, g, m⟩, fi, refs⟩ = .error Fault.apiMisuse ∨
    engine_handleregistry str2d ⟨⟨f :: rest, t, u, g, m⟩, fi, refs⟩ = .error Fault.luaError := by
  cases hg : (List.lookup FUNCTION_REGISTRY g).getD TValue.nil with
  | nil =>
    exact Or.inl ⟨_, _, handleregistry_absent_new str2d f rest t u g m fi refs hf hg, Or.inr rfl⟩
  | table r =>
    have hg1 := lookup_getD_table g r hg
    cases htb : t[r]? with
    | none =>
      right; left
      unfold engine_handleregistry
      simp only [lua_isfunction_callable f rest t u g m hf, Bool.not_true, Bool.false_and]
      simp [lua_getglobal, hg1, bind, Except.bind, lua_isnil, index2adr_top, pure, Except.pure,
        lua_gettable, htb]
    | some tb =>
      by_cases hx : luaH_get tb f = TValue.nil
      · exact Or.inl ⟨_, _,
          handleregistry_absent_table str2d f rest t u g m fi refs r tb hf hg1 htb hx, Or.inr rfl⟩
      · exact Or.inl ⟨_, _,
          handleregistry_present str2d f _ rest t u g m fi refs r tb hf hg1 htb rfl hx, Or.inl rfl⟩
  | _ =>
    right; right
    unfold engine_handleregistry
    simp only [lua_isfunction_callable f rest t u g m hf, Bool.not_true, Bool.false_and]
    simp [lua_getglobal, hg, bind, Except.bind, lua_isnil, index2adr_top, pure, Except.pure,
      lua_gettable]

theorem popvalue_callable (str2d : List Nat → Option lua_Number) (fuel : Nat) (f : TValue)
    (rest : List TValue) (t u g m) (fi : Nat) (refs : List Nat) (hf : is_callable f = true) :
    engine_popvalue str2d (fuel + 1) ⟨⟨f :: rest, t, u, g, m⟩, fi, refs⟩
      = engine_handleregistry str2d ⟨⟨f :: rest, t, u, g, m⟩, fi, refs⟩ := by
  cases f <;> simp [is_callable] at hf <;>
    simp [engine_popvalue, lua_isnumber, lua_isboolean, lua_isstring, lua_isnoneornil,
      lua_islightuserdata, lua_isuserdata, lua_isfunction]

theorem popvalue_elems_outcome (pop : Bridge → Except Fault (engine_value × Bridge)) (d : Nat)
    (hpop : ∀ w, w.state.stack.length = d + 1 → pops_or_faults (pop w) w) :
    ∀ (n i : Nat) (w : Bridge), (w.state.stack.length = d ∨ w.state.stack = []) →
      (∃ vs w1, popvalue_elems pop n i w = .ok (vs, w1) ∧
        (w1.state.stack = w.state.stack ∨ w1.state.stack = [])) ∨
      popvalue_elems pop n i w = .error Fault.apiMisuse ∨
      popvalue_elems pop n i w = .error Fault.luaError := by
  intro n
  induction n with
  | zero => intro i w _; exact Or.inl ⟨[], w, rfl, Or.inl rfl⟩
  | succ n ih =>
    intro i w hw
    obtain ⟨⟨stack, t, u, g, m⟩, fi, refs⟩ := w
    unfold popvalue_elems
    rcases lua_rawget_pushed (int_key i) stack t u g m with ⟨r, rest, tb, hs, htb, hr⟩ | hr
    · subst hs
      have hlen : (TValue.table r :: rest).length = d := by
        rcases hw with h | h
        · exact h
        · simp at h
      have hp := hpop ⟨⟨luaH_get tb (int_key i) :: TValue.table r :: rest, t, u, g, m⟩, fi, refs⟩
        (by simp only [List.length_cons] at hlen ⊢; omega)
      simp only [lua_pushinteger_nat, hr, bind, Except.bind]
      rcases hp with ⟨v, w2, h1, h2⟩ | h1 | h1
      · rw [h1]
        simp only [List.tail_cons] at h2
        have hw2 : w2.state.stack.length = d ∨ w2.state.stack = [] := by
          rcases h2 with h | h
          · left; rw [h]; exact hlen
          · right; exact h
        rcases ih (i + 1) w2 hw2 with ⟨vs, w3, h3, h4⟩ | h3 | h3
        · left
          refine ⟨some v :: vs, w3, by simp only [h3, pure, Except.pure], ?_⟩
          rcases h4 with h | h
          · rcases h2 with h5 | h5
            · left; rw [h, h5]
            · right; rw [h, h5]
          · right; exact h
        · right; left; simp only [h3]
        · right; right; simp only [h3]
      · right; left; rw [h1]
      · right; right; rw [h1]
    · right; left
      simp only [lua_pushinteger_nat, hr, bind, Except.bind]

theorem popvalue_outcome (str2d : List Nat → Option lua_Number) :
    ∀ (fuel : Nat) (w : Bridge), 1 ≤ fuel → 33 ≤ fuel + w.state.stack.length →
      pops_or_faults (engine_popvalue str2d fuel w) w := by
  intro fuel
  induction fuel with
  | zero => intro w h; omega
  | succ fuel ih =>
    intro w _ hfuel
    obtain ⟨⟨stack, t, u, g, m⟩, fi, refs⟩ := w
    cases stack with
    | nil =>
      right; left
      simp [engine_popvalue, lua_isnumber, lua_isboolean, lua_isstring, lua_isnoneornil, index2adr,
        stack_slot, lua_pop, lua_settop, bind, Except.bind]
    | cons x rest =>
      by_cases hsc : is_scalar x = true
      · exact Or.inl ⟨_, _, popvalue_scalar str2d fuel x rest t u g m fi refs hsc, Or.inl rfl⟩
      by_cases hcall : is_callable x = true
      · rw [popvalue_callable str2d fuel x rest t u g m fi refs hcall]
        rcases handleregistry_outcome str2d x rest t u g m fi refs hcall with ⟨v, w1, h1, h2⟩ | h | h
        · exact Or.inl ⟨v, w1, h1, h2⟩
        · exact Or.inr (Or.inl h)
        · exact Or.inr (Or.inr h)
      cases x with
      | nil =>
        exact Or.inl ⟨ENGINE_NULL, ⟨⟨rest, t, u, g, m⟩, fi, refs⟩, by
          simp [engine_popvalue, lua_isnumber, lua_isboolean, lua_isstring, lua_isnoneornil,
            engine_newvalue, bind, Except.bind, pure, Except.pure], Or.inl rfl⟩
      | lightuserdata p =>
        exact Or.inl ⟨ENGINE_NULL, ⟨⟨rest, t, u, g, m⟩, fi, refs⟩, by
          simp [engine_popvalue, lua_isnumber, lua_isboolean, lua_isstring, lua_isnoneornil,
            lua_islightuserdata, engine_newvalue, bind, Except.bind, pure, Except.pure], Or.inl rfl⟩
      | thread p =>
        exact Or.inl ⟨ENGINE_NULL, ⟨⟨rest, t, u, g, m⟩, fi, refs⟩, by
          simp [engine_popvalue, lua_isnumber, lua_isboolean, lua_isstring, lua_isnoneornil,
            lua_islightuserdata, lua_isuserdata, lua_isfunction, lua_iscfunction, lua_isthread,
            engine_newvalue, bind, Except.bind, pure, Except.pure], Or.inl rfl⟩
      | userdata p =>
        have hun : engine_popvalue str2d (fuel + 1) ⟨⟨TValue.userdata p :: rest, t, u, g, m⟩, fi, refs⟩
            = (luaL_checkudata ⟨TValue.userdata p :: rest, t, u, g, m⟩ (-1) >>= fun d =>
                Except.ok (ENGINE_JAVA_OBJECT d.obj, ⟨⟨rest, t, u, g, m⟩, fi, d.obj :: refs⟩)) := by
          simp [engine_popvalue, lua_isnumber, lua_isboolean, lua_isstring, lua_isnoneornil,
            lua_islightuserdata, lua_isuserdata, NewGlobalRef, bind, Except.bind, pure, Except.pure]
        rw [hun]
        simp only [luaL_checkudata, index2adr_top]
        cases u[p]? with
        | none => right; left; rfl
        | some d =>
          simp only
          split
          · exact Or.inl ⟨_, _, rfl, Or.inl rfl⟩
          · right; right; rfl
      | table r =>
        by_cases hd : 32 ≤ rest.length + 1
        · exact Or.inl ⟨_, _, popvalue_table_guard str2d fuel r rest t u g m fi refs hd, Or.inl rfl⟩
        · have hg : ¬ (lua_gettop ⟨TValue.table r :: rest, t, u, g, m⟩ ≥ 32) := by
            simp only [lua_gettop, List.length_cons]; omega
          simp only [List.length_cons] at hfuel
          unfold engine_popvalue
          simp only [lua_isnumber, lua_isboolean, lua_isstring, lua_isnoneornil,
            lua_islightuserdata, lua_isuserdata, lua_isfunction, lua_iscfunction, lua_isthread,
            lua_istable, index2adr_top, if_true, hg, if_false, Bool.false_eq_true]
          rcases popvalue_scan_outcome USHRT_MAX ⟨TValue.table r :: rest, t, u, g, m⟩ 1
              (by omega) (by simp only [USHRT_MAX]; omega) with ⟨idx1, hs⟩ | hs
          · simp only [hs, bind, Except.bind]
            rcases popvalue_elems_outcome (engine_popvalue str2d fuel) (rest.length + 1)
                (fun w hw => ih w (by omega) (by omega)) (idx1 - 1) 1
                ⟨⟨TValue.table r :: rest, t, u, g, m⟩, fi, refs⟩ (Or.inl rfl)
              with ⟨vs, w1, h1, h2⟩ | h1 | h1
            · rw [h1]
              simp only
              rcases lua_pop_one_cases w1.state with ⟨y, rest1, h3, h4⟩ | ⟨h3, h4⟩
              · rw [h4]
                refine Or.inl ⟨_, _, rfl, Or.inl ?_⟩
                rcases h2 with h | h
                · simp only at h
                  rw [h3] at h
                  simp only [List.cons.injEq] at h
                  simp only [List.tail_cons]
                  exact h.2
                · rw [h3] at h; cases h
              · rw [h4]; right; left; rfl
            · rw [h1]; right; left; rfl
            · rw [h1]; right; right; rfl
          · simp only [hs, bind, Except.bind]
            right; left; trivial
      | _ => first | exact absurd rfl hsc | exact absurd rfl hcall

theorem pops_or_faults_fuel (r : Except Fault (engine_value × Bridge)) (w : Bridge)
    (h : pops_or_faults r w) : r ≠ .error Fault.outOfFuel := by
  rcases h with ⟨v, w1, h1, _⟩ | h1 | h1 <;> rw [h1] <;> simp

theorem popvalue_elems_congr (pop1 pop2 : Bridge → Except Fault (engine_value × Bridge))
    (hpop : ∀ w, pop1 w ≠ .error Fault.outOfFuel → pop2 w = pop1 w) :
    ∀ (n i : Nat) (w : Bridge), popvalue_elems pop1 n i w ≠ .error Fault.outOfFuel →
      popvalue_elems pop2 n i w = popvalue_elems pop1 n i w := by
  intro n
  induction n with
  | zero => intro i w _; rfl
  | succ n ih =>
    intro i w h
    unfold popvalue_elems at h ⊢
    cases hr : lua_rawget (lua_pushinteger w.state i) (-2) with
    | error e => simp only [hr, bind, Except.bind]
    | ok L =>
      simp only [hr, bind, Except.bind] at h ⊢
      have h1 : pop1 { w with state := L } ≠ .error Fault.outOfFuel := by
        intro hc; rw [hc] at h; exact h rfl
      rw [hpop _ h1]
      cases hp : pop1 { w with state := L } with
      | error e => rfl
      | ok p =>
        obtain ⟨v, w2⟩ := p
        rw [hp] at h
        simp only at h ⊢
        have h2 : popvalue_elems pop1 n (i + 1) w2 ≠ .error Fault.outOfFuel := by
          intro hc; rw [hc] at h; exact h rfl
        rw [ih (i + 1) w2 h2]

theorem popvalue_fuel_free (str2d : List Nat → Option lua_Number) (w : Bridge)
    (h : ¬ ∃ r rest, w.state.stack = TValue.table r :: rest ∧ rest.length + 1 < 32)
    (f1 f2 : Nat) :
    engine_popvalue str2d (f1 + 1) w = engine_popvalue str2d (f2 + 1) w := by
  obtain ⟨⟨stack, t, u, g, m⟩, fi, refs⟩ := w
  cases stack with
  | nil =>
    simp [engine_popvalue, lua_isnumber, lua_isboolean, lua_isstring, lua_isnoneornil, index2adr,
      stack_slot]
  | cons x rest =>
    by_cases hsc : is_scalar x = true
    · rw [popvalue_scalar str2d f1 x rest t u g m fi refs hsc,
        popvalue_scalar str2d f2 x rest t u g m fi refs hsc]
    by_cases hcall : is_callable x = true
    · rw [popvalue_callable str2d f1 x rest t u g m fi refs hcall,
        popvalue_callable str2d f2 x rest t u g m fi refs hcall]
    cases x with
    | nil =>
      simp [engine_popvalue, lua_isnumber, lua_isboolean, lua_isstring, lua_isnoneornil]
    | lightuserdata p =>
      simp [engine_popvalue, lua_isnumber, lua_isboolean, lua_isstring, lua_isnoneornil,
        lua_islightuserdata]
    | thread p =>
      simp [engine_popvalue, lua_isnumber, lua_isboolean, lua_isstring, lua_isnoneornil,
        lua_islightuserdata, lua_isuserdata, lua_isfunction, lua_iscfunction, lua_isthread]
    | userdata p =>
      simp [engine_popvalue, lua_isnumber, lua_isboolean, lua_isstring, lua_isnoneornil,
        lua_islightuserdata, lua_isuserdata]
    | table r =>
      have hd : 32 ≤ rest.length + 1 := by
        by_contra hc
        exact h ⟨r, rest, rfl, by omega⟩
      rw [popvalue_table_guard str2d f1 r rest t u g m fi refs hd,
        popvalue_table_guard str2d f2 r rest t u g m fi refs hd]
    | _ => first | exact absurd rfl hsc | exact absurd rfl hcall

theorem popvalue_fuel_succ (str2d : List Nat → Option lua_Number) :
    ∀ (fuel : Nat) (w : Bridge), engine_popvalue str2d fuel w ≠ .error Fault.outOfFuel →
      engine_popvalue str2d (fuel + 1) w = engine_popvalue str2d fuel w := by
  intro fuel
  induction fuel with
  | zero => intro w h; exact absurd rfl h
  | succ fuel ih =>
    intro w h
    by_cases ht : ∃ r rest, w.state.stack = TValue.table r :: rest ∧ rest.length + 1 < 32
    · obtain ⟨r, rest, hs, hd⟩ := ht
      obtain ⟨⟨stack, t, u, g, m⟩, fi, refs⟩ := w
      simp only at hs
      subst hs
      have hg : ¬ (lua_gettop ⟨TValue.table r :: rest, t, u, g, m⟩ ≥ 32) := by
        simp only [lua_gettop, List.length_cons]; omega
      have unfold_eq : ∀ f, engine_popvalue str2d (f + 1)
            ⟨⟨TValue.table r :: rest, t, u, g, m⟩, fi, refs⟩
          = (popvalue_scan USHRT_MAX ⟨TValue.table r :: rest, t, u, g, m⟩ 1 >>= fun p =>
              popvalue_elems (engine_popvalue str2d f) (p.2 - 1) 1 ⟨p.1, fi, refs⟩ >>= fun q =>
                lua_pop q.2.state 1 >>= fun L =>
                  Except.ok (ENGINE_ARRAY q.1, { q.2 with state := L })) := by
        intro f
        rw [engine_popvalue]
        simp only [lua_isnumber, lua_isboolean, lua_isstring, lua_isnoneornil,
          lua_islightuserdata, lua_isuserdata, lua_isfunction, lua_iscfunction, lua_isthread,
          lua_istable, index2adr_top, if_true, hg, if_false, Bool.false_eq_true]
        rfl
      rw [unfold_eq] at h ⊢
      rw [unfold_eq fuel]
      cases hs : popvalue_scan USHRT_MAX ⟨TValue.table r :: rest, t, u, g, m⟩ 1 with
      | error e => rfl
      | ok p =>
        rw [hs] at h
        simp only [bind, Except.bind] at h ⊢
        have h1 : popvalue_elems (engine_popvalue str2d fuel) (p.2 - 1) 1 ⟨p.1, fi, refs⟩
            ≠ .error Fault.outOfFuel := by
          intro hc; rw [hc] at h; exact h rfl
        rw [popvalue_elems_congr (engine_popvalue str2d fuel) (engine_popvalue str2d (fuel + 1))
          (fun w1 hw1 => ih w1 hw1) (p.2 - 1) 1 _ h1]
    · exact popvalue_fuel_free str2d w ht (fuel + 1) fuel

theorem popvalue_outcome_32 (str2d : List Nat → Option lua_Number) (w : Bridge) :
    pops_or_faults (engine_popvalue str2d 32 w) w := by
  cases hs : w.state.stack with
  | nil =>
    obtain ⟨⟨stack, t, u, g, m⟩, fi, refs⟩ := w
    simp only at hs
    subst hs
    right; left
    simp [engine_popvalue, lua_isnumber, lua_isboolean, lua_isstring, lua_isnoneornil, index2adr,
      stack_slot, lua_pop, lua_settop, bind, Except.bind]
  | cons x rest =>
    exact popvalue_outcome str2d 32 w (by omega) (by rw [hs, List.length_cons]; omega)

theorem popvalue_fuel_32 (str2d : List Nat → Option lua_Number) (w : Bridge) :
    ∀ k, engine_popvalue str2d (32 + k) w = engine_popvalue str2d 32 w ∧
      engine_popvalue str2d (32 + k) w ≠ .error Fault.outOfFuel := by
  intro k
  induction k with
  | zero =>
    exact ⟨rfl, pops_or_faults_fuel _ w (popvalue_outcome_32 str2d w)⟩
  | succ k ih =>
    have h := popvalue_fuel_succ str2d (32 + k) w ih.2
    have e : 32 + (k + 1) = 32 + k + 1 := by omega
    rw [e, h]
    exact ih

theorem encoded_chain_frame (tables tables1 : List Table) (base : Nat)
    (h : ∀ j, base ≤ j → tables1[j]? = tables[j]?) :
    ∀ (k d : Nat) (v : TValue), encoded_chain tables base k d v → encoded_chain tables1 base k d v := by
  intro k
  induction k with
  | zero =>
    intro d v hv
    simp only [encoded_chain] at hv ⊢
    split_ifs at hv ⊢ with hd
    · exact hv
    · obtain ⟨r, tb, h1, h2, h3, h4⟩ := hv
      exact ⟨r, tb, h1, h2, by rw [h r h2]; exact h3, h4⟩
  | succ k ih =>
    intro d v hv
    simp only [encoded_chain] at hv ⊢
    split_ifs at hv ⊢ with hd
    · exact hv
    · obtain ⟨r, tb, h1, h2, h3, h4, h5⟩ := hv
      exact ⟨r, tb, h1, h2, by rw [h r h2]; exact h3, ih _ _ h4, h5⟩

theorem encoded_chain_base (tables : List Table) (base base1 : Nat) (hb : base1 ≤ base) :
    ∀ (k d : Nat) (v : TValue), encoded_chain tables base k d v → encoded_chain tables base1 k d v := by
  intro k
  induction k with
  | zero =>
    intro d v hv
    simp only [encoded_chain] at hv ⊢
    split_ifs at hv ⊢ with hd
    · exact hv
    · obtain ⟨r, tb, h1, h2, h3, h4⟩ := hv
      exact ⟨r, tb, h1, by omega, h3, h4⟩
  | succ k ih =>
    intro d v hv
    simp only [encoded_chain] at hv ⊢
    split_ifs at hv ⊢ with hd
    · exact hv
    · obtain ⟨r, tb, h1, h2, h3, h4, h5⟩ := hv
      exact ⟨r, tb, h1, by omega, h3, ih _ _ h4, h5⟩

theorem pushvalue_array_unfold (inst fuel : Nat) (values : List (Option engine_value))
    (w : Bridge) (h : ¬ lua_gettop w.state ≥ 32) :
    engine_pushvalue inst (fuel + 1) (ENGINE_ARRAY values) w
      = pushvalue_loop (engine_pushvalue inst fuel) values fuel 0
          { w with state := lua_newtable w.state } := by
  rw [engine_pushvalue]
  simp only [h, if_false]

theorem pushvalue_loop_done (push : engine_value → Bridge → Except Fault Bridge)
    (values : List (Option engine_value)) (fuel i : Nat) (w : Bridge) (h : ¬ i < values.length) :
    pushvalue_loop push values (fuel + 1) i w = .ok w := by
  rw [pushvalue_loop]
  simp only [h, if_false]

theorem pushvalue_array_chain (inst : Nat) :
    ∀ (k d fuel : Nat) (w : Bridge), k + 2 ≤ fuel → w.state.stack.length = d →
      ∃ x w1, engine_pushvalue inst fuel (array_chain k) w = .ok w1 ∧
        w1.state.stack = x :: w.state.stack ∧
        (∀ j, j < w.state.tables.length → w1.state.tables[j]? = w.state.tables[j]?) ∧
        w.state.tables.length ≤ w1.state.tables.length ∧
        encoded_chain w1.state.tables w.state.tables.length k d x := by
  intro k
  induction k with
  | zero =>
    intro d fuel w hf hd
    obtain ⟨fuel, rfl⟩ : ∃ f, fuel = f + 1 := ⟨fuel - 1, by omega⟩
    obtain ⟨fuel, rfl⟩ : ∃ f, fuel = f + 1 := ⟨fuel - 1, by omega⟩
    obtain ⟨⟨stack, t, u, g, m⟩, fi, refs⟩ := w
    simp only at hd
    by_cases hg : 32 ≤ d
    · refine ⟨TValue.nil, ⟨⟨TValue.nil :: stack, t, u, g, m⟩, fi, refs⟩, ?_, rfl,
        fun j _ => rfl, le_refl _, ?_⟩
      · have : lua_gettop ⟨stack, t, u, g, m⟩ ≥ 32 := by simp only [lua_gettop]; omega
        simp [array_chain, engine_pushvalue, this, lua_pushnil]
      · simp [encoded_chain, hg]
    · refine ⟨TValue.table t.length, ⟨⟨TValue.table t.length :: stack, t ++ [[]], u, g, m⟩, fi, refs⟩,
        ?_, rfl, fun j hj => ?_, by simp, ?_⟩
      · have : ¬ lua_gettop ⟨stack, t, u, g, m⟩ ≥ 32 := by simp only [lua_gettop]; omega
        simp [array_chain, engine_pushvalue, this, lua_newtable, pushvalue_loop]
      · simp only at hj ⊢
        rw [List.getElem?_append_left hj]
      · simp only [encoded_chain, hg, if_false]
        exact ⟨t.length, [], rfl, le_refl _, by simp, rfl⟩
  | succ k ih =>
    intro d fuel w hf hd
    obtain ⟨fuel, rfl⟩ : ∃ f, fuel = f + 1 := ⟨fuel - 1, by omega⟩
    obtain ⟨fuel, rfl⟩ : ∃ f, fuel = f + 1 := ⟨fuel - 1, by omega⟩
    obtain ⟨fuel, rfl⟩ : ∃ f, fuel = f + 1 := ⟨fuel - 1, by omega⟩
    obtain ⟨⟨stack, t, u, g, m⟩, fi, refs⟩ := w
    simp only at hd
    by_cases hg : 32 ≤ d
    · refine ⟨TValue.nil, ⟨⟨TValue.nil :: stack, t, u, g, m⟩, fi, refs⟩, ?_, rfl,
        fun j _ => rfl, le_refl _, ?_⟩
      · have : lua_gettop ⟨stack, t, u, g, m⟩ ≥ 32 := by simp only [lua_gettop]; omega
        simp [array_chain, engine_pushvalue, this, lua_pushnil]
      · simp [encoded_chain, hg]
    · obtain ⟨x, ⟨⟨stack2, t2, u2, g2, m2⟩, fi2, refs2⟩, h1, h2, h3, h4, h5⟩ :=
        ih (d + 2) (fuel + 1 + 1)
          ⟨⟨int_key 1 :: TValue.table t.length :: stack, t ++ [[]], u, g, m⟩, fi, refs⟩
          (by omega) (by simp only [List.length_cons]; omega)
      simp only at h2 h3 h4 h5
      subst h2
      simp only [List.length_append, List.length_singleton] at h3 h4 h5
      have htb : t2[t.length]? = some [] := by
        rw [h3 t.length (by omega)]; simp
      have hgt : ¬ lua_gettop ⟨stack, t, u, g, m⟩ ≥ 32 := by simp only [lua_gettop]; omega
      refine ⟨TValue.table t.length,
        ⟨⟨TValue.table t.length :: stack,
          t2.set t.length (luaH_set [] (int_key 1) x), u2, g2, m2⟩, fi2, refs2⟩, ?_, rfl,
        fun j hj => ?_, ?_, ?_⟩
      · have hpi : lua_pushinteger ⟨TValue.table t.length :: stack, t ++ [[]], u, g, m⟩ ((0 : Nat) + 1 : Int)
            = ⟨int_key 1 :: TValue.table t.length :: stack, t ++ [[]], u, g, m⟩ :=
          lua_pushinteger_succ _ _ _ _ _ 0
        rw [show array_chain (k + 1) = ENGINE_ARRAY [some (array_chain k)] from rfl,
          pushvalue_array_unfold inst _ _ _ hgt, pushvalue_loop]
        simp only [List.length_singleton, Nat.lt_one_iff, if_true, List.getElem?_cons_zero,
          bind, Except.bind, lua_newtable]
        rw [hpi, h1]
        simp only [lua_rawset_int_key _ _ _ _ _ _ _ _ _ htb]
        exact pushvalue_loop_done _ _ _ _ _ (by simp)
      · simp only at hj ⊢
        rw [List.getElem?_set_ne (by omega), h3 j (by omega), List.getElem?_append_left hj]
      · simp only [List.length_set]; omega
      · simp only [encoded_chain, hg, if_false]
        refine ⟨t.length, luaH_set [] (int_key 1) x, rfl, le_refl _, ?_, ?_, ?_⟩
        · rw [List.getElem?_set_self (by omega)]
        · rw [luaH_get_set_eq]
          apply encoded_chain_base _ (t.length + 1) t.length (by omega)
          apply encoded_chain_frame t2 _ (t.length + 1) (fun j hj => ?_) _ _ _ h5
          rw [List.getElem?_set_ne (by omega)]
        · rw [luaH_get_set_ne _ _ _ _ (by simp [int_key])]
          rfl

theorem popvalue_scan_bound : ∀ (fuel : Nat) (L : lua_State) (idx : Nat) (L1 : lua_State)
    (idx1 : Nat), idx ≤ 65534 → popvalue_scan fuel L idx = .ok (L1, idx1) → idx1 ≤ 65534 := by
  intro fuel
  induction fuel with
  | zero => intro L idx L1 idx1 _ h; simp [popvalue_scan] at h
  | succ fuel ih =>
    intro L idx L1 idx1 hidx h
    obtain ⟨stack, t, u, g, m⟩ := L
    unfold popvalue_scan at h
    by_cases hb : idx = USHRT_MAX - 1
    · simp only [hb, if_true, Except.ok.injEq, Prod.mk.injEq] at h
      rw [← h.2]; simp [USHRT_MAX]
    · rw [if_neg hb] at h
      have hlt : idx < 65534 := by simp only [USHRT_MAX] at hb; omega
      have hmod : (idx + 1) % 65536 = idx + 1 := Nat.mod_eq_of_lt (by omega)
      rcases lua_rawget_pushed (int_key idx) stack t u g m with ⟨r, rest, tb, hs, htb, hr⟩ | hr
      · subst hs
        simp only [lua_pushinteger_nat, hr, bind, Except.bind, lua_isnil_top, lua_pop_one, hmod,
          pure, Except.pure] at h
        by_cases hn : luaH_get tb (int_key idx) = TValue.nil
        · simp only [hn, decide_True, if_true, Except.ok.injEq, Prod.mk.injEq] at h
          omega
        · simp only [hn, decide_False, Bool.false_eq_true, if_false] at h
          exact ih _ (idx + 1) L1 idx1 (by omega) h
      · simp only [lua_pushinteger_nat, hr, bind, Except.bind] at h
        cases h

theorem popvalue_elems_length (pop : Bridge → Except Fault (engine_value × Bridge)) :
    ∀ (n i : Nat) (w : Bridge) (vs : List (Option engine_value)) (w1 : Bridge),
      popvalue_elems pop n i w = .ok (vs, w1) → vs.length = n := by
  intro n
  induction n with
  | zero =>
    intro i w vs w1 h
    simp only [popvalue_elems, Except.ok.injEq, Prod.mk.injEq] at h
    rw [← h.1]; rfl
  | succ n ih =>
    intro i w vs w1 h
    unfold popvalue_elems at h
    cases hr : lua_rawget (lua_pushinteger w.state i) (-2) with
    | error e => simp only [hr, bind, Except.bind] at h; cases h
    | ok L =>
      simp only [hr, bind, Except.bind] at h
      cases hp : pop { w with state := L } with
      | error e => rw [hp] at h; cases h
      | ok p =>
        obtain ⟨v, w2⟩ := p
        rw [hp] at h
        simp only at h
        cases he : popvalue_elems pop n (i + 1) w2 with
        | error e => rw [he] at h; cases h
        | ok q =>
          obtain ⟨vs2, w3⟩ := q
          rw [he] at h
          simp only [pure, Except.pure, Except.ok.injEq, Prod.mk.injEq] at h
          rw [← h.1, List.length_cons, ih (i + 1) w2 vs2 w3 he]

/-- A function that is interned comes back as an InternedFunction or as Null -/
theorem handleregistry_value (str2d : List Nat → Option lua_Number)
    (f : TValue) (rest : List TValue) (t u g m) (fi : Nat) (refs : List Nat)
    (hf : is_callable f = true) (v : engine_value) (w1 : Bridge)
    (h : engine_handleregistry str2d ⟨⟨f :: rest, t, u, g, m⟩, fi, refs⟩ = .ok (v, w1)) :
    v = ENGINE_NULL ∨ ∃ func, v = ENGINE_LUA_FUNCTION func := by
  cases hg : (List.lookup FUNCTION_REGISTRY g).getD TValue.nil with
  | nil =>
    rw [handleregistry_absent_new str2d f rest t u g m fi refs hf hg] at h
    simp only [Except.ok.injEq, Prod.mk.injEq] at h
    exact Or.inr ⟨_, h.1.symm⟩
  | table r =>
    have hg1 := lookup_getD_table g r hg
    cases htb : t[r]? with
    | none =>
      unfold engine_handleregistry at h
      simp only [lua_isfunction_callable f rest t u g m hf, Bool.not_true, Bool.false_and] at h
      simp [lua_getglobal, hg1, bind, Except.bind, lua_isnil, index2adr_top, pure, Except.pure,
        lua_gettable, htb] at h
    | some tb =>
      by_cases hx : luaH_get tb f = TValue.nil
      · rw [handleregistry_absent_table str2d f rest t u g m fi refs r tb hf hg1 htb hx] at h
        simp only [Except.ok.injEq, Prod.mk.injEq] at h
        exact Or.inr ⟨_, h.1.symm⟩
      · rw [handleregistry_present str2d f _ rest t u g m fi refs r tb hf hg1 htb rfl hx] at h
        simp only [Except.ok.injEq, Prod.mk.injEq] at h
        split_ifs at h
        · exact Or.inl h.1.symm
        · exact Or.inr ⟨_, h.1.symm⟩
  | _ =>
    unfold engine_handleregistry at h
    simp only [lua_isfunction_callable f rest t u g m hf, Bool.not_true, Bool.false_and] at h
    simp [lua_getglobal, hg, bind, Except.bind, lua_isnil, index2adr_top, pure, Except.pure,
      lua_gettable] at h

theorem popvalue_array_length (str2d : List Nat → Option lua_Number) (fuel : Nat) (w : Bridge)
    (values : List (Option engine_value)) (w1 : Bridge)
    (h : engine_popvalue str2d fuel w = .ok (ENGINE_ARRAY values, w1)) :
    values.length ≤ 65533 := by
  cases fuel with
  | zero => simp [engine_popvalue] at h
  | succ fuel =>
    obtain ⟨⟨stack, t, u, g, m⟩, fi, refs⟩ := w
    cases stack with
    | nil =>
      simp [engine_popvalue, lua_isnumber, lua_isboolean, lua_isstring, lua_isnoneornil, index2adr,
        stack_slot, lua_pop, lua_settop, bind, Except.bind] at h
    | cons x rest =>
      by_cases hsc : is_scalar x = true
      · rw [popvalue_scalar str2d fuel x rest t u g m fi refs hsc] at h
        simp only [Except.ok.injEq, Prod.mk.injEq] at h
        cases x <;> simp [is_scalar] at hsc <;> simp only [decode_scalar] at h
        · exact absurd h.1 (by simp)
        · exact absurd h.1 (by simp)
        · split at h <;> exact absurd h.1 (by simp)
      by_cases hcall : is_callable x = true
      · rw [popvalue_callable str2d fuel x rest t u g m fi refs hcall] at h
        rcases handleregistry_value str2d x rest t u g m fi refs hcall _ _ h with h1 | ⟨func, h1⟩
        · cases h1
        · cases h1
      cases x with
      | nil =>
        simp [engine_popvalue, lua_isnumber, lua_isboolean, lua_isstring, lua_isnoneornil,
          engine_newvalue, bind, Except.bind, pure, Except.pure] at h
      | lightuserdata p =>
        simp [engine_popvalue, lua_isnumber, lua_isboolean, lua_isstring, lua_isnoneornil,
          lua_islightuserdata, engine_newvalue, bind, Except.bind, pure, Except.pure] at h
      | thread p =>
        simp [engine_popvalue, lua_isnumber, lua_isboolean, lua_isstring, lua_isnoneornil,
          lua_islightuserdata, lua_isuserdata, lua_isfunction, lua_iscfunction, lua_isthread,
          engine_newvalue, bind, Except.bind, pure, Except.pure] at h
      | userdata p =>
        simp [engine_popvalue, lua_isnumber, lua_isboolean, lua_isstring, lua_isnoneornil,
          lua_islightuserdata, lua_isuserdata, NewGlobalRef, bind, Except.bind, pure,
          Except.pure] at h
        cases hc : luaL_checkudata ⟨TValue.userdata p :: rest, t, u, g, m⟩ (-1) with
        | error e => rw [hc] at h; cases h
        | ok d => rw [hc] at h; simp at h
      | table r =>
        by_cases hd : 32 ≤ rest.length + 1
        · rw [popvalue_table_guard str2d fuel r rest t u g m fi refs hd] at h
          simp at h
        · have hg : ¬ (lua_gettop ⟨TValue.table r :: rest, t, u, g, m⟩ ≥ 32) := by
            simp only [lua_gettop, List.length_cons]; omega
          rw [engine_popvalue] at h
          simp only [lua_isnumber, lua_isboolean, lua_isstring, lua_isnoneornil,
            lua_islightuserdata, lua_isuserdata, lua_isfunction, lua_iscfunction, lua_isthread,
            lua_istable, index2adr_top, if_true, hg, if_false, Bool.false_eq_true] at h
          cases hs : popvalue_scan USHRT_MAX ⟨TValue.table r :: rest, t, u, g, m⟩ 1 with
          | error e => simp only [hs, bind, Except.bind] at h; cases h
          | ok p =>
            obtain ⟨L1, idx1⟩ := p
            have hb := popvalue_scan_bound _ _ _ _ _ (by omega) hs
            simp only [hs, bind, Except.bind] at h
            cases he : popvalue_elems (engine_popvalue str2d fuel) (idx1 - 1) 1
                ⟨L1, fi, refs⟩ with
            | error e => rw [he] at h; cases h
            | ok q =>
              obtain ⟨vs, w2⟩ := q
              have hl := popvalue_elems_length _ _ _ _ _ _ he
              rw [he] at h
              simp only at h
              cases hp : lua_pop w2.state 1 with
              | error e => rw [hp] at h; cases h
              | ok L2 =>
                rw [hp] at h
                simp only [pure, Except.pure, Except.ok.injEq, Prod.mk.injEq,
                  ENGINE_ARRAY.injEq] at h
                rw [← h.1, hl]
                omega
      | _ => first | exact absurd rfl hsc | exact absurd rfl hcall

theorem fill_replicate_scalar (n : Nat) (k : Nat) (h1 : 1 ≤ k) (h2 : k ≤ n) :
    is_scalar (luaH_get (fill_table (List.replicate n (some (ENGINE_BOOLEAN true))) 0 [])
      (int_key k)) = true := by
  have hget : (List.replicate n (some (ENGINE_BOOLEAN true)))[k - 1]?
      = some (some (ENGINE_BOOLEAN true)) := by
    rw [List.getElem?_replicate]
    have : k - 1 < n := by omega
    simp [this]
  have h := fill_table_inside (List.replicate n (some (ENGINE_BOOLEAN true))) 0 [] (k - 1) _ hget
  have e : 0 + (k - 1) + 1 = k := by omega
  rw [e] at h
  rw [h]
  rfl

theorem full_table_scalar (k : Nat) (h1 : 1 ≤ k) (h2 : k ≤ 65534) :
    is_scalar (luaH_get full_table (int_key k)) = true := by
  unfold full_table
  exact fill_replicate_scalar 65534 k h1 h2

theorem encodable_absent (n : Nat) (hn : n ≤ 65535) :
    encodable (ENGINE_ARRAY (List.replicate n none)) := by
  refine encodable.array _ (by rw [List.length_replicate]; exact hn) (fun v hv => ?_)
  cases List.eq_of_mem_replicate hv

/-! ## Theorems -/

/-- Claim C1, as amended: for every Null, Boolean or Floating, and every String without a
zero byte before its terminator that the VM does not read as a number, `engine_pushvalue`
followed by `engine_popvalue` returns the value itself and leaves the process as it was -/
theorem roundtrip_scalars (str2d : List Nat → Option lua_Number) (inst f1 f2 : Nat)
    (v : engine_value) (w : Bridge) (hv : roundtrip_scalar str2d v) :
    (engine_pushvalue inst (f1 + 1) v w >>= engine_popvalue str2d (f2 + 1)) = .ok (v, w) := by
  obtain ⟨⟨stack, t, u, g, m⟩, fi, refs⟩ := w
  cases v <;> simp only [roundtrip_scalar] at hv
  · simp [engine_pushvalue, engine_popvalue, lua_pushnil, bind, Except.bind, lua_isnumber, index2adr_top, lua_isboolean, lua_isstring, lua_isnoneornil, lua_pop_one, engine_newvalue, pure, Except.pure]
  · simp [engine_pushvalue, engine_popvalue, lua_pushboolean, bind, Except.bind, lua_isnumber, index2adr_top, lua_isboolean, lua_toboolean, lua_pop_one, pure, Except.pure]
  · simp [engine_pushvalue, engine_popvalue, lua_pushnumber, bind, Except.bind, lua_isnumber, lua_tonumber, index2adr_top, lua_pop_one, pure, Except.pure]
  · obtain ⟨content, rfl, hz, hn⟩ := hv
    simp [engine_pushvalue, engine_popvalue, lua_pushstring, takeWhile_content content hz, bind, Except.bind, lua_isnumber, hn, lua_isboolean, lua_isstring, lua_tolstring, index2adr_top, lua_pop_one, popvalue_string_id content hz, pure, Except.pure]

theorem roundtrip_scalars_witness :
    roundtrip_scalar decimal_str2d (ENGINE_STRING [104, 105, 0]) ∧
    (engine_pushvalue 0 (0 + 1) (ENGINE_STRING [104, 105, 0]) fresh_bridge
      >>= engine_popvalue decimal_str2d (0 + 1)) = .ok (ENGINE_STRING [104, 105, 0], fresh_bridge) :=
  have h : roundtrip_scalar decimal_str2d (ENGINE_STRING [104, 105, 0]) :=
    ⟨[104, 105], rfl, by decide, by decide⟩
  ⟨h, roundtrip_scalars decimal_str2d 0 0 0 _ fresh_bridge h⟩

/-- Claim C1, as stated, fails: the String "10" has no zero byte before its terminator, yet
it comes back from the VM as the Floating 10 -/
theorem roundtrip_numeric_string :
    (engine_pushvalue 0 1 (ENGINE_STRING [49, 48, 0]) fresh_bridge
      >>= engine_popvalue decimal_str2d 1)
      = .ok (ENGINE_FLOATING (lua_Number.finite 10), fresh_bridge) ∧
    ENGINE_FLOATING (lua_Number.finite 10) ≠ ENGINE_STRING [49, 48, 0] :=
  ⟨rfl, by simp⟩

/-- Claim C2 fails on the code: interning the same script function twice in one VM, with
nothing reset in between, returns identity 1 and then identity 2, and `function_index` is
incremented by both calls (the registry is written as identity ↦ callable, so the lookup
of the callable never finds it) -/
theorem intern_twice_allocates_twice :
    (do
      let (v1, w1) ← engine_handleregistry decimal_str2d (with_top (TValue.lfunction 0) fresh_bridge)
      let (v2, w2) ← engine_handleregistry decimal_str2d (with_top (TValue.lfunction 0) w1)
      pure (v1, v2, w1.function_index, w2.function_index, w2.state.tables))
    = .ok (ENGINE_LUA_FUNCTION 1, ENGINE_LUA_FUNCTION 2, 1, 2,
        [[(TValue.number (lua_Number.finite 2), TValue.lfunction 0),
          (TValue.number (lua_Number.finite 1), TValue.lfunction 0)]]) := by
  rfl

/-- Claim C3 fails on the code: with a script function on top of the number 7,
`engine_popvalue` returns with an empty stack (the 7 is gone too); and decoding a table
that holds a script function stops in an invalid stack access instead of returning -/
theorem popvalue_function_clears_stack :
    engine_popvalue decimal_str2d 1
        (with_top (TValue.lfunction 0) (with_top (TValue.number (lua_Number.finite 7)) fresh_bridge))
      = .ok (ENGINE_LUA_FUNCTION 1,
          ⟨⟨[], [[(TValue.number (lua_Number.finite 1), TValue.lfunction 0)]], [],
            [(FUNCTION_REGISTRY, TValue.table 0)], TValue.nil⟩, 1, []⟩) ∧
    engine_popvalue decimal_str2d 2
        ⟨⟨[TValue.table 0], [[(TValue.number (lua_Number.finite 1), TValue.lfunction 3)]], [], [],
          TValue.nil⟩, 0, []⟩
      = .error Fault.apiMisuse :=
  ⟨rfl, rfl⟩

/-- Claim C4 fails on the code: with a callable on top of the number 7, the branch for a
callable found in the registry leaves the 7 on the stack, the branch for a callable absent
from it leaves the stack empty -/
theorem handleregistry_branches_differ :
    (engine_handleregistry decimal_str2d
        ⟨⟨[TValue.lfunction 0, TValue.number (lua_Number.finite 7)],
          [[(TValue.lfunction 0, TValue.number (lua_Number.finite 5))]], [],
          [(FUNCTION_REGISTRY, TValue.table 0)], TValue.nil⟩, 5, []⟩).map
        (fun r => (r.1, r.2.state.stack))
      = .ok (ENGINE_LUA_FUNCTION 5, [TValue.number (lua_Number.finite 7)]) ∧
    (engine_handleregistry decimal_str2d
        ⟨⟨[TValue.lfunction 0, TValue.number (lua_Number.finite 7)], [[]], [],
          [(FUNCTION_REGISTRY, TValue.table 0)], TValue.nil⟩, 5, []⟩).map
        (fun r => (r.1, r.2.state.stack))
      = .ok (ENGINE_LUA_FUNCTION 6, []) :=
  ⟨rfl, rfl⟩

/-- Claim C10: from `function_index = 0`, in any sequence of fewer than 2^32 calls of
`engine_handleregistry`, each on a callable that is not a key of the registry (the VM being
otherwise arbitrary at each call), the identities returned are 1, 2, 3, ... in this order:
the k-th is k, so 0 is not issued, they increase strictly and none is issued twice -/
theorem identities_count_from_one (str2d : List Nat → Option lua_Number)
    (Ls : List lua_State) (w : Bridge) (h0 : w.function_index = 0)
    (hL : ∀ L ∈ Ls, ∃ f rest, L.stack = f :: rest ∧ is_callable f = true ∧ unregistered L f)
    (hlen : Ls.length < 2 ^ 32) :
    ∃ w1, intern_sequence str2d Ls w
        = .ok ((List.range' 1 Ls.length).map ENGINE_LUA_FUNCTION, w1) ∧
      w1.function_index = Ls.length := by
  obtain ⟨w1, h1, h2⟩ := intern_sequence_counts str2d Ls w hL (by omega)
  rw [h0] at h1 h2
  exact ⟨w1, by simpa using h1, by simpa using h2⟩

theorem identities_count_from_one_witness :
    ∃ w1, intern_sequence decimal_str2d
        [⟨[TValue.lfunction 0], [], [], [], TValue.nil⟩,
         ⟨[TValue.cfunction 4, TValue.nil], [[(TValue.number (lua_Number.finite 1), TValue.lfunction 0)]],
           [], [(FUNCTION_REGISTRY, TValue.table 0)], TValue.nil⟩] fresh_bridge
        = .ok ((List.range' 1 2).map ENGINE_LUA_FUNCTION, w1) ∧ w1.function_index = 2 :=
  identities_count_from_one decimal_str2d _ fresh_bridge rfl
    (by
      intro L hL
      simp only [List.mem_cons, List.mem_singleton, List.not_mem_nil, or_false] at hL
      rcases hL with rfl | rfl
      · exact ⟨_, _, rfl, rfl, by simp [unregistered]⟩
      · exact ⟨_, _, rfl, rfl, by simp [unregistered, FUNCTION_REGISTRY, luaH_get]⟩)
    (by simp)

/-- Claim C6: a table at a stack depth below 32 whose values at the integer keys 1..n are
numbers, booleans or strings and whose value at key n+1 is nil, with n ≤ 65533, is decoded by
`engine_popvalue` into an Array of exactly n elements, the k-th being what `engine_popvalue`
returns for the value at key k; the table is popped and nothing else changes -/
theorem table_decodes_leading_keys (str2d : List Nat → Option lua_Number) (fuel : Nat)
    (r : Nat) (rest : List TValue) (t : List Table) (u : List (TValue × engine_userdata))
    (g : List (String × TValue)) (m : TValue) (fi : Nat) (refs : List Nat) (tb : Table) (n : Nat)
    (htb : t[r]? = some tb) (hdepth : rest.length + 1 < 32) (hn : n ≤ 65533)
    (hk : ∀ k, 1 ≤ k → k ≤ n → is_scalar (luaH_get tb (int_key k)) = true)
    (hend : luaH_get tb (int_key (n + 1)) = TValue.nil) :
    ∃ values,
      engine_popvalue str2d (fuel + 2) ⟨⟨TValue.table r :: rest, t, u, g, m⟩, fi, refs⟩
        = .ok (ENGINE_ARRAY values, ⟨⟨rest, t, u, g, m⟩, fi, refs⟩) ∧
      values.length = n ∧
      ∀ k, 1 ≤ k → k ≤ n → ∃ v, values[k - 1]? = some (some v) ∧
        ∀ w : Bridge, engine_popvalue str2d 1 (with_top (luaH_get tb (int_key k)) w) = .ok (v, w) := by
  refine ⟨_, popvalue_table_scalars str2d fuel r rest t u g m fi refs tb n htb hdepth hn hk
    (Or.inr hend), by simp, ?_⟩
  intro k h1 h2
  refine ⟨decode_scalar str2d (luaH_get tb (int_key k)), ?_, ?_⟩
  · rw [List.getElem?_map, List.getElem?_range' _ _ (by omega)]
    have : 1 + (k - 1) = k := by omega
    simp [this]
  · intro w
    obtain ⟨⟨stack, t1, u1, g1, m1⟩, fi1, refs1⟩ := w
    exact popvalue_scalar str2d 0 _ stack t1 u1 g1 m1 fi1 refs1 (hk k h1 h2)

theorem table_decodes_leading_keys_witness :
    ∃ values,
      engine_popvalue decimal_str2d (0 + 2)
          ⟨⟨TValue.table 0 :: [], [[(int_key 1, TValue.number (lua_Number.finite 10)),
              (int_key 2, TValue.boolean true), (int_key 3, TValue.string [120]),
              (int_key 5, TValue.number (lua_Number.finite 50))]], [], [], TValue.nil⟩, 0, []⟩
        = .ok (ENGINE_ARRAY values, ⟨⟨[], [[(int_key 1, TValue.number (lua_Number.finite 10)),
              (int_key 2, TValue.boolean true), (int_key 3, TValue.string [120]),
              (int_key 5, TValue.number (lua_Number.finite 50))]], [], [], TValue.nil⟩, 0, []⟩) ∧
      values.length = 3 ∧
      ∀ k, 1 ≤ k → k ≤ 3 → ∃ v, values[k - 1]? = some (some v) ∧
        ∀ w : Bridge, engine_popvalue decimal_str2d 1
          (with_top (luaH_get [(int_key 1, TValue.number (lua_Number.finite 10)),
              (int_key 2, TValue.boolean true), (int_key 3, TValue.string [120]),
              (int_key 5, TValue.number (lua_Number.finite 50))] (int_key k)) w) = .ok (v, w) :=
  table_decodes_leading_keys decimal_str2d 0 0 [] _ [] [] TValue.nil 0 [] _ 3 rfl (by decide)
    (by decide)
    (by
      intro k h1 h2
      interval_cases k <;> decide)
    (by decide)

/-- Claim C7 fails on the code: for the VM string of the four bytes `h`, 0, `i`, 0 the string
branch returns the buffer `h`, `?`, `i`, 0, 0: the zero at position 1 is replaced, the zero
at position 3, the last byte of the string, is not, so a zero remains before the terminator -/
theorem popvalue_string_keeps_last_zero :
    engine_popvalue decimal_str2d 1 (with_top (TValue.string [104, 0, 105, 0]) fresh_bridge)
      = .ok (ENGINE_STRING [104, 63, 105, 0, 0], fresh_bridge) := by
  rfl

/-- Claim C9: a table met at a stack depth of 32 or more (the table counted) is popped and
returned as Null, whatever the heap holds and with no recursive call left to make; and for
a chain of tables, each at key 1 of the one before, whose outermost table is alone on the
stack, the 31 outer tables are decoded as Arrays and the 32nd as Null -/
theorem depth_guard_returns_null (str2d : List Nat → Option lua_Number) :
    (∀ (fuel r : Nat) (rest : List TValue) (t : List Table) (u : List (TValue × engine_userdata))
        (g : List (String × TValue)) (m : TValue) (fi : Nat) (refs : List Nat),
      32 ≤ rest.length + 1 →
      engine_popvalue str2d (fuel + 1) ⟨⟨TValue.table r :: rest, t, u, g, m⟩, fi, refs⟩
        = .ok (ENGINE_NULL, ⟨⟨rest, t, u, g, m⟩, fi, refs⟩)) ∧
    (∀ (fuel r : Nat) (t : List Table) (u : List (TValue × engine_userdata))
        (g : List (String × TValue)) (m : TValue) (fi : Nat) (refs : List Nat),
      table_chain t 31 r →
      engine_popvalue str2d (fuel + 32) ⟨⟨[TValue.table r], t, u, g, m⟩, fi, refs⟩
        = .ok (nested_null 31, ⟨⟨[], t, u, g, m⟩, fi, refs⟩)) :=
  ⟨fun fuel r rest t u g m fi refs h => popvalue_table_guard str2d fuel r rest t u g m fi refs h,
   fun fuel r t u g m fi refs h =>
     popvalue_table_chain str2d t u g m fi refs 31 r [] fuel rfl h⟩

theorem depth_guard_returns_null_witness :
    table_chain chain_heap 31 0 ∧
    engine_popvalue decimal_str2d (0 + 32) ⟨⟨[TValue.table 0], chain_heap, [], [], TValue.nil⟩, 0, []⟩
      = .ok (nested_null 31, ⟨⟨[], chain_heap, [], [], TValue.nil⟩, 0, []⟩) :=
  have h : table_chain chain_heap 31 0 := by
    repeat (first | exact trivial | refine ⟨_, _, rfl, rfl, rfl, ?_⟩)
  ⟨h, (depth_guard_returns_null decimal_str2d).2 0 0 chain_heap [] [] TValue.nil 0 [] h⟩

/-- Where the Arrays have at most 65535 slots each: for every tagged value of the tags Null,
Boolean, Integral, Floating, String, Array (of such elements or absent slots, nested at
will), HostObject, InternedFunction and VMGlobalsHandle, `engine_pushvalue` returns once it
has fuel enough, and it leaves the stack one value deeper with the earlier values unchanged,
also where the depth guard fires -/
theorem pushvalue_pushes_exactly_one (inst : Nat) (value : engine_value) (hv : encodable value) :
    ∃ F, ∀ fuel, F ≤ fuel → ∀ w : Bridge, ∃ x w1,
      engine_pushvalue inst fuel value w = .ok w1 ∧ w1.state.stack = x :: w.state.stack := by
  obtain ⟨F, hF⟩ := pushvalue_pushes inst value hv
  refine ⟨F, fun fuel hf w => ?_⟩
  obtain ⟨x, w1, h1, h2, _⟩ := hF fuel hf w
  exact ⟨x, w1, h1, h2⟩

theorem pushvalue_pushes_exactly_one_witness :
    encodable (ENGINE_ARRAY [some (ENGINE_FLOATING (lua_Number.finite 1.5)), none,
      some (ENGINE_ARRAY [some ENGINE_NULL, some (ENGINE_JAVA_OBJECT 9)])]) ∧
    ∃ F, ∀ fuel, F ≤ fuel → ∀ w : Bridge, ∃ x w1,
      engine_pushvalue 0 fuel (ENGINE_ARRAY [some (ENGINE_FLOATING (lua_Number.finite 1.5)), none,
        some (ENGINE_ARRAY [some ENGINE_NULL, some (ENGINE_JAVA_OBJECT 9)])]) w = .ok w1 ∧
      w1.state.stack = x :: w.state.stack :=
  have h : encodable (ENGINE_ARRAY [some (ENGINE_FLOATING (lua_Number.finite 1.5)), none,
      some (ENGINE_ARRAY [some ENGINE_NULL, some (ENGINE_JAVA_OBJECT 9)])]) := by
    refine encodable.array _ (by decide) (fun v hv => ?_)
    simp only [List.mem_cons, Option.some.injEq, List.mem_singleton, List.not_mem_nil, or_false,
      reduceCtorEq, false_or] at hv
    rcases hv with rfl | rfl
    · exact encodable.floating _
    · refine encodable.array _ (by decide) (fun v hv => ?_)
      simp only [List.mem_cons, Option.some.injEq, List.mem_singleton, List.not_mem_nil,
        or_false] at hv
      rcases hv with rfl | rfl
      · exact encodable.null
      · exact encodable.java_object _
  ⟨h, pushvalue_pushes_exactly_one 0 _ h⟩

/-- Claim C5 fails on the code: for an Array of 65536 absent slots, pushed on a stack that
holds one value, `engine_pushvalue` does not return, whatever the fuel (the `unsigned short`
counter of its loop returns to 0 after 65535 and never reaches the length), so the stack is
not left one value deeper; with 65535 slots the call returns and the stack is one value
deeper -/
theorem pushvalue_long_array_never_returns :
    (∀ fuel, engine_pushvalue 0 fuel (ENGINE_ARRAY (List.replicate 65536 none))
        (with_top (TValue.boolean true) fresh_bridge) = .error Fault.outOfFuel) ∧
    (∃ F, ∀ fuel, F ≤ fuel → ∃ x w1,
      engine_pushvalue 0 fuel (ENGINE_ARRAY (List.replicate 65535 none))
        (with_top (TValue.boolean true) fresh_bridge) = .ok w1 ∧
      w1.state.stack = [x, TValue.boolean true]) := by
  refine ⟨pushvalue_never_ends 0 65536 (le_refl _) _ (by decide), ?_⟩
  obtain ⟨F, hF⟩ := pushvalue_pushes 0 _ (encodable_absent 65535 (le_refl _))
  refine ⟨F, fun fuel hf => ?_⟩
  obtain ⟨x, w1, h1, h2, _⟩ := hF fuel hf (with_top (TValue.boolean true) fresh_bridge)
  exact ⟨x, w1, h1, h2⟩

/-- Claim C8, as amended: an Array of at most 65535 slots, each absent or holding a Null, a
Boolean, a Floating or a String without zero byte that the VM does not read as a number,
encoded at a stack depth of at most 30 and decoded again, comes back as the Array of the
slots that precede the first Null or absent slot, cut after the first 65533 of them; the
stack is as before -/
theorem array_roundtrip_leading_slots (str2d : List Nat → Option lua_Number) (inst pf fuel : Nat)
    (values : List (Option engine_value)) (w : Bridge)
    (hlen : values.length ≤ 65535) (hval : ∀ x ∈ values, scalar_slot str2d x)
    (hpf : values.length ≤ pf) (hdepth : w.state.stack.length ≤ 30) :
    ∃ w1, (engine_pushvalue inst (pf + 2) (ENGINE_ARRAY values) w
          >>= engine_popvalue str2d (fuel + 2))
        = .ok (ENGINE_ARRAY ((values.takeWhile present).take 65533), w1) ∧
      w1.state.stack = w.state.stack := by
  obtain ⟨⟨stack, t, u, g, m⟩, fi, refs⟩ := w
  exact ⟨_, roundtrip_array str2d inst pf fuel values hlen hval hpf stack t u g m fi refs hdepth,
    rfl⟩

theorem array_roundtrip_leading_slots_witness :
    ∃ w1, (engine_pushvalue 0 (3 + 2) (ENGINE_ARRAY [some (ENGINE_FLOATING (lua_Number.finite 1.5)),
            some (ENGINE_STRING [104, 105, 0]), some ENGINE_NULL]) fresh_bridge
          >>= engine_popvalue decimal_str2d (0 + 2))
        = .ok (ENGINE_ARRAY [some (ENGINE_FLOATING (lua_Number.finite 1.5)),
            some (ENGINE_STRING [104, 105, 0])], w1) ∧
      w1.state.stack = fresh_bridge.state.stack :=
  array_roundtrip_leading_slots decimal_str2d 0 3 0 [some (ENGINE_FLOATING (lua_Number.finite 1.5)),
      some (ENGINE_STRING [104, 105, 0]), some ENGINE_NULL] fresh_bridge (by decide)
    (by
      intro x hx
      simp only [List.mem_cons, List.mem_singleton, List.not_mem_nil, or_false] at hx
      rcases hx with rfl | rfl | rfl
      · exact trivial
      · exact ⟨[104, 105], rfl, by decide, by decide⟩
      · exact trivial)
    (by decide) (by decide)

/-- Claim C8, as stated, fails: an Array of 65534 Booleans, encoded on an empty stack and
decoded again, comes back with 65533 elements, though none of its slots is Null or absent -/
theorem array_roundtrip_truncates :
    (engine_pushvalue 0 (65534 + 2)
          (ENGINE_ARRAY (List.replicate 65534 (some (ENGINE_BOOLEAN true)))) fresh_bridge
        >>= engine_popvalue decimal_str2d (0 + 2)).map Prod.fst
      = .ok (ENGINE_ARRAY (List.replicate 65533 (some (ENGINE_BOOLEAN true)))) ∧
    (List.replicate 65533 (some (ENGINE_BOOLEAN true))).length
      ≠ (List.replicate 65534 (some (ENGINE_BOOLEAN true))).length :=
  ⟨roundtrip_replicate decimal_str2d 0 65534 0 65534 (by decide) (by decide) true,
   by rw [List.length_replicate, List.length_replicate]; decide⟩

/-- Claim C14: `engine_handleregistry` ends in `abort()` exactly when the value on top of the
stack is not a function (script-defined or native; an empty stack has no function on top),
and the process is then in the state in which the call found it -/
theorem handleregistry_aborts_iff (str2d : List Nat → Option lua_Number) (w w1 : Bridge) :
    engine_handleregistry str2d w = .error (Fault.abort w1) ↔
      (¬ ∃ f rest, w.state.stack = f :: rest ∧ is_callable f = true) ∧ w1 = w := by
  constructor
  · intro h
    by_cases hc : ∃ f rest, w.state.stack = f :: rest ∧ is_callable f = true
    · obtain ⟨f, rest, hs, hf⟩ := hc
      obtain ⟨⟨stack, t, u, g, m⟩, fi, refs⟩ := w
      simp only at hs
      subst hs
      exact absurd h (handleregistry_callable_no_abort str2d f rest t u g m fi refs hf w1)
    · rw [handleregistry_not_callable str2d w hc] at h
      simp only [Except.error.injEq, Fault.abort.injEq] at h
      exact ⟨hc, h.symm⟩
  · rintro ⟨hc, rfl⟩
    exact handleregistry_not_callable str2d w1 hc

theorem handleregistry_aborts_iff_witness :
    engine_handleregistry decimal_str2d (with_top (TValue.number (lua_Number.finite 7)) fresh_bridge)
      = .error (Fault.abort (with_top (TValue.number (lua_Number.finite 7)) fresh_bridge)) :=
  (handleregistry_aborts_iff decimal_str2d _ _).2
    ⟨by
      rintro ⟨f, rest, hs, hf⟩
      simp only [with_top, fresh_bridge, empty_state, List.cons.injEq] at hs
      rw [← hs.1] at hf
      simp [is_callable] at hf, rfl⟩

/-- Claim C11 fails on the code: with a native function on top of the stack of a fresh VM,
`engine_popvalue` returns the InternedFunction 1, not Null; `function_index` goes from 0 to
1 and the registry table is created and written -/
theorem popvalue_cfunction_is_interned :
    engine_popvalue decimal_str2d 1 (with_top (TValue.cfunction 0) fresh_bridge)
      = .ok (ENGINE_LUA_FUNCTION 1,
          ⟨⟨[], [[(TValue.number (lua_Number.finite 1), TValue.cfunction 0)]], [],
            [(FUNCTION_REGISTRY, TValue.table 0)], TValue.nil⟩, 1, []⟩) := by
  rfl

/-- Claim C12 fails on the code: after the script function f has been interned with
identity 1, the registry table holds the pair (1, f): looking up f gives nil, looking up 1
gives f -/
theorem registry_maps_identity_to_callable :
    (engine_handleregistry decimal_str2d (with_top (TValue.lfunction 0) fresh_bridge)).map
        (fun r => (r.1, r.2.state.globals.lookup FUNCTION_REGISTRY, r.2.state.tables))
      = .ok (ENGINE_LUA_FUNCTION 1, some (TValue.table 0),
          [[(TValue.number (lua_Number.finite 1), TValue.lfunction 0)]]) ∧
    luaH_get [(TValue.number (lua_Number.finite 1), TValue.lfunction 0)] (TValue.lfunction 0)
      = TValue.nil ∧
    luaH_get [(TValue.number (lua_Number.finite 1), TValue.lfunction 0)] (int_key 1)
      = TValue.lfunction 0 :=
  ⟨rfl, by decide, by decide⟩

/-- Claim C13: when the registry table holds the number d for the callable on top of the
stack, `engine_handleregistry` returns the InternedFunction of d converted to an unsigned
32-bit integer, or Null when that is 0; it pops the callable, leaves `function_index` and
everything else as they were, and does not abort.  A stored identity n below 2^32 is
converted to n itself. -/
theorem handleregistry_returns_stored (str2d : List Nat → Option lua_Number)
    (f : TValue) (rest : List TValue) (t : List Table) (u : List (TValue × engine_userdata))
    (g : List (String × TValue)) (m : TValue) (fi : Nat) (refs : List Nat) (r : Nat) (tb : Table)
    (d : lua_Number)
    (hf : is_callable f = true) (hg : g.lookup FUNCTION_REGISTRY = some (TValue.table r))
    (htb : t[r]? = some tb) (hget : luaH_get tb f = TValue.number d) :
    engine_handleregistry str2d ⟨⟨f :: rest, t, u, g, m⟩, fi, refs⟩
      = .ok (if double_to_uint32 d = 0 then ENGINE_NULL
              else ENGINE_LUA_FUNCTION (double_to_uint32 d),
          ⟨⟨rest, t, u, g, m⟩, fi, refs⟩) ∧
    ∀ n : Nat, n < 2 ^ 32 → d = lua_Number.finite (n : Rat) → double_to_uint32 d = n := by
  refine ⟨?_, fun n hn hd => by rw [hd]; exact double_to_uint32_nat n hn⟩
  have h := handleregistry_present str2d f _ rest t u g m fi refs r tb hf hg htb hget (by simp)
  simpa [lua_tonumber] using h

theorem handleregistry_returns_stored_witness :
    engine_handleregistry decimal_str2d
        ⟨⟨[TValue.lfunction 0, TValue.nil],
          [[(TValue.lfunction 0, TValue.number (lua_Number.finite 5))]], [],
          [(FUNCTION_REGISTRY, TValue.table 0)], TValue.nil⟩, 9, []⟩
      = .ok (if double_to_uint32 (lua_Number.finite 5) = 0 then ENGINE_NULL
              else ENGINE_LUA_FUNCTION (double_to_uint32 (lua_Number.finite 5)),
          ⟨⟨[TValue.nil], [[(TValue.lfunction 0, TValue.number (lua_Number.finite 5))]], [],
            [(FUNCTION_REGISTRY, TValue.table 0)], TValue.nil⟩, 9, []⟩) ∧
    ∀ n : Nat, n < 2 ^ 32 → lua_Number.finite 5 = lua_Number.finite (n : Rat) →
      double_to_uint32 (lua_Number.finite 5) = n :=
  handleregistry_returns_stored decimal_str2d (TValue.lfunction 0) [TValue.nil] _ [] _ TValue.nil
    9 [] 0 _ (lua_Number.finite 5) rfl rfl rfl (by decide)

/-- Claim C17: for an InternedFunction of any identity, for the VMGlobalsHandle and for
Null, `engine_pushvalue` pushes nil and changes nothing else; and what was encoded from
an InternedFunction is decoded as Null -/
theorem pushvalue_stubs_push_nil (str2d : List Nat → Option lua_Number) (inst fuel : Nat)
    (func : Nat) (w : Bridge) :
    engine_pushvalue inst (fuel + 1) (ENGINE_LUA_FUNCTION func) w
      = .ok { w with state := lua_pushnil w.state } ∧
    engine_pushvalue inst (fuel + 1) ENGINE_LUA_GLOBALS w
      = .ok { w with state := lua_pushnil w.state } ∧
    engine_pushvalue inst (fuel + 1) ENGINE_NULL w
      = .ok { w with state := lua_pushnil w.state } ∧
    (engine_pushvalue inst (fuel + 1) (ENGINE_LUA_FUNCTION func) w
        >>= engine_popvalue str2d (fuel + 1)) = .ok (ENGINE_NULL, w) := by
  refine ⟨rfl, rfl, rfl, ?_⟩
  obtain ⟨⟨stack, t, u, g, m⟩, fi, refs⟩ := w
  simp [engine_pushvalue, engine_popvalue, lua_pushnil, bind, Except.bind, lua_isnumber,
    lua_isboolean, lua_isstring, lua_isnoneornil, engine_newvalue, pure, Except.pure]

/-- Claim C18: `engine_pushobject` returns with one more value on the stack, a userdata whose
block has the released flag 0, the given instance as back-reference and the reference
`NewGlobalRef` returned for the given object, and whose metatable is the one registered for
the bridge; the host has one strong reference more, to that object, and none less -/
theorem pushobject_binds (inst obj : Nat) (w : Bridge) :
    ∃ w1, engine_pushobject w inst obj = .ok w1 ∧
      w1.state.stack = TValue.userdata w.state.udata.length :: w.state.stack ∧
      w1.state.udata[w.state.udata.length]?
        = some (w.state.udata_meta, { obj := obj, engine := inst, released := 0 }) ∧
      w1.state.udata.length = w.state.udata.length + 1 ∧
      w1.global_refs = obj :: w.global_refs ∧
      w1.state.tables = w.state.tables ∧ w1.function_index = w.function_index := by
  obtain ⟨⟨stack, t, u, g, m⟩, fi, refs⟩ := w
  have h1 : (u ++ [(TValue.nil, (⟨obj, inst, 0⟩ : engine_userdata))])[u.length]?
      = some (TValue.nil, ⟨obj, inst, 0⟩) := by simp
  refine ⟨⟨⟨TValue.userdata u.length :: stack, t,
      (u ++ [(TValue.nil, (⟨obj, inst, 0⟩ : engine_userdata))]).set u.length
        (m, (⟨obj, inst, 0⟩ : engine_userdata)), g, m⟩, fi, obj :: refs⟩, ?_, rfl, ?_, ?_, rfl, rfl, rfl⟩
  · simp [engine_pushobject, NewGlobalRef, lua_newuserdata, luaL_getmetatable, lua_setmetatable,
      h1]
  · simp [List.getElem?_set_self]
  · simp

/-- Claim C15 fails on the code: `list` called on a host array of 65536 elements (all null)
makes an Array of 65536 slots; and `engine_pushvalue` never leaves its loop on that Array,
whatever the fuel -/
theorem list_exceeds_bound :
    (∃ values,
      (Java_ca_jarcode_ascript_luanative_LuaNValueFactory_list (List.replicate 65536 none)
          (some 0)).ret = some (ENGINE_ARRAY values) ∧
      values.length = 65536) ∧
    ∀ fuel, engine_pushvalue 0 fuel (ENGINE_ARRAY (List.replicate 65536 none)) fresh_bridge
      = .error Fault.outOfFuel := by
  refine ⟨?_, pushvalue_never_ends 0 65536 (le_refl _) fresh_bridge (by decide)⟩
  obtain ⟨values, h1, h2⟩ := list_length (List.replicate 65536 none) 0
  exact ⟨values, h1, by rw [h2, List.length_replicate]⟩

/-- Claim C16: each of the eleven constructors of `LuaNValueFactory` that takes the globals
handle, called with a null handle, raises the error "tried to translate with null globals",
returns null, and makes no tagged value (and takes no reference) -/
theorem null_globals_is_refused (boolean : Bool) (f d : lua_Number) (characters : List Nat)
    (i l s b : Int) (elements : List (Option engine_value)) (obj : Nat) :
    Java_ca_jarcode_ascript_luanative_LuaNValueFactory_translate__ZLca_jarcode_ascript_interfaces_ScriptValue_2
        boolean none = null_globals_refused ∧
    Java_ca_jarcode_ascript_luanative_LuaNValueFactory_translate__FLca_jarcode_ascript_interfaces_ScriptValue_2
        f none = null_globals_refused ∧
    Java_ca_jarcode_ascript_luanative_LuaNValueFactory_translate__DLca_jarcode_ascript_interfaces_ScriptValue_2
        d none = null_globals_refused ∧
    Java_ca_jarcode_ascript_luanative_LuaNValueFactory_translate__Ljava_lang_String_2Lca_jarcode_ascript_interfaces_ScriptValue_2
        characters none = null_globals_refused ∧
    Java_ca_jarcode_ascript_luanative_LuaNValueFactory_translate__ILca_jarcode_ascript_interfaces_ScriptValue_2
        i none = null_globals_refused ∧
    Java_ca_jarcode_ascript_luanative_LuaNValueFactory_translate__JLca_jarcode_ascript_interfaces_ScriptValue_2
        l none = null_globals_refused ∧
    Java_ca_jarcode_ascript_luanative_LuaNValueFactory_translate__SLca_jarcode_ascript_interfaces_ScriptValue_2
        s none = null_globals_refused ∧
    Java_ca_jarcode_ascript_luanative_LuaNValueFactory_translate__BLca_jarcode_ascript_interfaces_ScriptValue_2
        b none = null_globals_refused ∧
    Java_ca_jarcode_ascript_luanative_LuaNValueFactory_list elements none = null_globals_refused ∧
    Java_ca_jarcode_ascript_luanative_LuaNValueFactory_nullValue none = null_globals_refused ∧
    Java_ca_jarcode_ascript_luanative_LuaNValueFactory_translateObj obj none = null_globals_refused :=
  ⟨rfl, rfl, rfl, rfl, rfl, rfl, rfl, rfl, rfl, rfl, rfl⟩

/-- Claim C19: in every state of the VM and of the process, tables that contain themselves
included, `engine_popvalue` needs no more than 32 nested calls: with the recursion bounded
at 32 or more it never runs out of fuel, and what it does is what it does at 32 -/
theorem popvalue_terminates (str2d : List Nat → Option lua_Number) (w : Bridge) (fuel : Nat)
    (h : 32 ≤ fuel) :
    engine_popvalue str2d fuel w ≠ .error Fault.outOfFuel ∧
    engine_popvalue str2d fuel w = engine_popvalue str2d 32 w := by
  obtain ⟨k, rfl⟩ : ∃ k, fuel = 32 + k := ⟨fuel - 32, by omega⟩
  exact ⟨(popvalue_fuel_32 str2d w k).2, (popvalue_fuel_32 str2d w k).1⟩

theorem popvalue_terminates_witness :
    engine_popvalue decimal_str2d 40
        ⟨⟨[TValue.table 0], [[(int_key 1, TValue.table 0)]], [], [], TValue.nil⟩, 0, []⟩
      ≠ .error Fault.outOfFuel ∧
    engine_popvalue decimal_str2d 40
        ⟨⟨[TValue.table 0], [[(int_key 1, TValue.table 0)]], [], [], TValue.nil⟩, 0, []⟩
      = engine_popvalue decimal_str2d 32
        ⟨⟨[TValue.table 0], [[(int_key 1, TValue.table 0)]], [], [], TValue.nil⟩, 0, []⟩ :=
  popvalue_terminates decimal_str2d _ 40 (by decide)

/-- Claim C21: an Array that `engine_popvalue` returns has at most 65533 elements, in every
state; and a table at a stack depth below 32 that holds scalars at every integer key from 1
to m, for any m from 65533 on, is decoded into an Array of exactly 65533 elements, those of
the keys 1 to 65533 in order, the values at the keys above being left out -/
theorem decoded_array_is_capped (str2d : List Nat → Option lua_Number) :
    (∀ (fuel : Nat) (w : Bridge) (values : List (Option engine_value)) (w1 : Bridge),
      engine_popvalue str2d fuel w = .ok (ENGINE_ARRAY values, w1) → values.length ≤ 65533) ∧
    (∀ (fuel r : Nat) (rest : List TValue) (t : List Table) (u : List (TValue × engine_userdata))
        (g : List (String × TValue)) (m : TValue) (fi : Nat) (refs : List Nat) (tb : Table)
        (top : Nat),
      t[r]? = some tb → rest.length + 1 < 32 → 65533 ≤ top →
      (∀ k, 1 ≤ k → k ≤ top → is_scalar (luaH_get tb (int_key k)) = true) →
      ∃ values,
        engine_popvalue str2d (fuel + 2) ⟨⟨TValue.table r :: rest, t, u, g, m⟩, fi, refs⟩
          = .ok (ENGINE_ARRAY values, ⟨⟨rest, t, u, g, m⟩, fi, refs⟩) ∧
        values.length = 65533 ∧
        ∀ k, 1 ≤ k → k ≤ 65533 → ∃ v, values[k - 1]? = some (some v) ∧
          ∀ w : Bridge,
            engine_popvalue str2d 1 (with_top (luaH_get tb (int_key k)) w) = .ok (v, w)) := by
  refine ⟨fun fuel w values w1 h => popvalue_array_length str2d fuel w values w1 h, ?_⟩
  intro fuel r rest t u g m fi refs tb top htb hdepth htop hk
  have hk1 : ∀ k, 1 ≤ k → k ≤ 65533 → is_scalar (luaH_get tb (int_key k)) = true :=
    fun k h1 h2 => hk k h1 (by omega)
  refine ⟨_, popvalue_table_scalars str2d fuel r rest t u g m fi refs tb 65533 htb hdepth
    (le_refl _) hk1 (Or.inl rfl), by rw [List.length_map, List.length_range'], ?_⟩
  intro k h1 h2
  refine ⟨decode_scalar str2d (luaH_get tb (int_key k)), ?_, ?_⟩
  · rw [List.getElem?_map, List.getElem?_range' _ _ (by omega)]
    have : 1 + (k - 1) = k := by omega
    simp only [Nat.one_mul, this, Option.map_some']
  · intro w
    obtain ⟨⟨stack, t1, u1, g1, m1⟩, fi1, refs1⟩ := w
    exact popvalue_scalar str2d 0 _ stack t1 u1 g1 m1 fi1 refs1 (hk1 k h1 h2)

theorem decoded_array_is_capped_witness :
    ∃ values,
      engine_popvalue decimal_str2d (0 + 2)
          ⟨⟨TValue.table 0 :: [], [full_table], [], [], TValue.nil⟩, 0, []⟩
        = .ok (ENGINE_ARRAY values, ⟨⟨[], [full_table], [], [], TValue.nil⟩, 0, []⟩) ∧
      values.length = 65533 ∧
      ∀ k, 1 ≤ k → k ≤ 65533 → ∃ v, values[k - 1]? = some (some v) ∧
        ∀ w : Bridge,
          engine_popvalue decimal_str2d 1 (with_top (luaH_get full_table (int_key k)) w)
            = .ok (v, w) :=
  (decoded_array_is_capped decimal_str2d).2 0 0 [] [full_table] [] [] TValue.nil 0 [] full_table
    65534 (List.getElem?_cons_zero ..) (by decide) (by decide) full_table_scalar

end Consoles
